import Mathlib

/-!
# monitools: the sampling collectors (`tools/tools.go`) and the orchestrator (`cmd/monictl.go`)

A shallow embedding of the Go code.

* Go strings are lists of characters (`GoString`); the helpers from package
  `strings` that the collectors call (`Contains`, `Split`, `Fields`) are
  executable functions on them.
* A `float64` is a `Float64`: a finite value (kept as the rational it denotes),
  an infinity or NaN.  `strconv.ParseFloat` is a parameter of the collectors.
* The outside world is an input: the i-th call of `cmd.Output()` returns
  `probes i`, and `os.Create` / `ioutil.WriteFile` succeed or fail as the
  `Sink` says.
* What a collector does to the outside world is recorded as a list of `Event`s
  (queries, sleeps, file operations, channel sends).  A run-time panic ends the
  run with a `Crash` carrying the events performed so far.
* The bytes handed to `ioutil.WriteFile` are the text of `json.MarshalIndent`
  with prefix "" and indent " "; the formatting of one number (`strconv`) is a
  parameter.  The repository has no reader of its files: the decoder is
  `json.Unmarshal` into `[]float64` and `[][]float64`, as its documentation
  describes it for arrays, numbers and `null`.
* The goroutines of `main` are not run inside the model of `main`: the value
  that arrives on each report channel is an input (`recv`), and a run of `main`
  is the list of goroutines started, the list of channels read and the exit
  status.  The repetition count is a natural number: the properties proved are
  about `reps ≥ 0`.
-/

namespace tools

/-- A Go string, as its sequence of characters. -/
abbrev GoString := List Char

/-- A Go `float64` value. -/
inductive Float64 where
  | finite (q : ℚ)
  | posInf
  | negInf
  | nan
  deriving DecidableEq, Repr

/-- The result of `cmd.Output()`: the captured standard output and whether the
returned `err` is non-nil. Go returns the bytes captured so far also when the
command fails. -/
structure CmdResult where
  out : GoString
  err : Bool
  deriving DecidableEq, Repr

/-- What the file system answers to the collector: whether `os.Create` fails
and whether `ioutil.WriteFile` fails. -/
structure Sink where
  createErr : Bool
  writeErr : Bool
  deriving DecidableEq, Repr

/-- A Go `error` value: `none` is `nil`. -/
abbrev GoError := Option String

/-- The effects of a collector that the specification talks about. -/
inductive Event where
  | query (i : Nat)
  | sleep (ns : Int)
  | create
  | write
  | sendBool (v : Bool)
  | sendErr (e : GoError)
  deriving DecidableEq, Repr

/-- A Go run-time panic. -/
inductive Panic where
  | indexOutOfRange (index length : Nat)
  deriving DecidableEq, Repr

/-- A goroutine that panicked: the panic and the events performed before it. -/
structure Crash where
  panic : Panic
  trace : List Event
  deriving DecidableEq, Repr

/-! ## Package `strings` -/

/-- Whether `s` begins with `p` (`strings.HasPrefix`). -/
def startsWith : GoString → GoString → Bool
  | _, [] => true
  | [], _ :: _ => false
  | c :: cs, p :: ps => c == p && startsWith cs ps

/-- Go's `strings.Contains s substr`: some suffix of `s` begins with `substr`. -/
def Contains : GoString → GoString → Bool
  | [], substr => startsWith [] substr
  | c :: cs, substr => startsWith (c :: cs) substr || Contains cs substr

/-- The scan of `strings.Split` for a non-empty separator: `skip` counts the
characters of a separator occurrence still to be stepped over, `cur` holds the
piece being read, reversed. -/
def splitScan (sep : GoString) : GoString → Nat → GoString → List GoString
  | [], _, cur => [cur.reverse]
  | _ :: cs, skip + 1, cur => splitScan sep cs skip cur
  | c :: cs, 0, cur =>
    if startsWith (c :: cs) sep then cur.reverse :: splitScan sep cs (sep.length - 1) []
    else splitScan sep cs 0 (c :: cur)

/-- Go's `strings.Split s sep`: the pieces of `s` between the non-overlapping
occurrences of `sep`, found left to right; with an empty separator, the
characters of `s` one by one. -/
def Split (s sep : GoString) : List GoString :=
  match sep with
  | [] => s.map fun c => [c]
  | _ :: _ => splitScan sep s 0 []

/-- Go's `unicode.IsSpace`: the characters with the White_Space property. -/
def isSpace (c : Char) : Bool :=
  let n := c.toNat
  (0x09 ≤ n && n ≤ 0x0d) || n == 0x20 || n == 0x85 || n == 0xa0 || n == 0x1680 ||
  (0x2000 ≤ n && n ≤ 0x200a) || n == 0x2028 || n == 0x2029 || n == 0x202f ||
  n == 0x205f || n == 0x3000

/-- The scan of `strings.Fields`: `cur` holds the field being read, reversed. -/
def fieldsScan : GoString → GoString → List GoString
  | [], [] => []
  | [], c :: cur => [(c :: cur).reverse]
  | c :: cs, cur =>
    if isSpace c then
      match cur with
      | [] => fieldsScan cs []
      | d :: ds => (d :: ds).reverse :: fieldsScan cs []
    else fieldsScan cs (c :: cur)

/-- Go's `strings.Fields s`: the maximal runs of non-space characters of `s`. -/
def Fields (s : GoString) : List GoString :=
  fieldsScan s []

/-- Indexing `xs[i]` of a Go slice: a panic when `i` is out of range. -/
def index {α : Type} (xs : List α) (i : Nat) : Except Panic α :=
  match xs.get? i with
  | some x => .ok x
  | none => .error (.indexOutOfRange i xs.length)

/-! ## `RecordHostCPUUsage` -/

/-- The int64 value an integer wraps to. -/
def wrapInt64 (x : Int) : Int :=
  (x + 2 ^ 63) % 2 ^ 64 - 2 ^ 63

/-- The argument of `time.Sleep(napLength * time.Second)`, in nanoseconds. -/
def napDuration (nap : Int) : Int :=
  wrapInt64 (wrapInt64 nap * 1000000000)

/-- The `else` branch of the loop body (tools.go lines 42-43): the text after
the first "qemu", its seventh field, parsed. Either index may panic. -/
def cpuExtract (parseFloat : GoString → Float64) (out : GoString) : Except Panic Float64 := do
  let outTail ← index (Split out "qemu".toList) 1
  let field ← index (Fields outTail) 6
  pure (parseFloat field)

/-- The value one iteration stores in `cpuData[i]` (tools.go lines 34-45). -/
def cpuSample (parseFloat : GoString → Float64) (r : CmdResult) : Except Panic Float64 :=
  if r.err then .ok (.finite (-1))
  else if !Contains r.out "qemu".toList then .ok (.finite (-2))
  else cpuExtract parseFloat r.out

/-- The local variables of `RecordHostCPUUsage` and the events so far. -/
structure CPUState where
  cpuData : List Float64
  success : Bool
  trace : List Event
  deriving DecidableEq, Repr

/-- One iteration of the loop of `RecordHostCPUUsage` (tools.go lines 30-46). -/
def cpuIteration (parseFloat : GoString → Float64) (nap : Int) (i : Nat) (r : CmdResult)
    (st : CPUState) : Except Crash CPUState :=
  let trace := st.trace ++ [Event.query i]
  let success := if r.err then false else st.success
  match cpuSample parseFloat r with
  | .error p => .error { panic := p, trace := trace }
  | .ok v =>
    .ok { cpuData := st.cpuData.set i v, success := success,
          trace := trace ++ [Event.sleep (napDuration nap)] }

/-- The loop `for i := 0; i < reps; i++` of `RecordHostCPUUsage`, with `n`
iterations left to run from index `i`. -/
def cpuLoop (parseFloat : GoString → Float64) (probes : Nat → CmdResult) (nap : Int) :
    Nat → Nat → CPUState → Except Crash CPUState
  | 0, _, st => .ok st
  | n + 1, i, st =>
    match cpuIteration parseFloat nap i (probes i) st with
    | .error c => .error c
    | .ok st' => cpuLoop parseFloat probes nap n (i + 1) st'

/-- What a finished collector leaves: the Series it accumulated, the value it
sent on its report channel and all its events. -/
structure Finished (σ : Type) where
  series : σ
  success : Bool
  trace : List Event
  deriving DecidableEq, Repr

/-- The part after the loop, common to `RecordHostCPUUsage` and
`RecordTraffic`: create the file, write the JSON, send `success`. -/
def writeAndReport {σ : Type} (series : σ) (success : Bool) (trace : List Event)
    (sink : Sink) : Finished σ :=
  let success := if sink.createErr then false else success
  let success := if sink.writeErr then false else success
  { series := series, success := success,
    trace := trace ++ [Event.create, Event.write, Event.sendBool success] }

/-- The function `RecordHostCPUUsage(filename, reps, nap, c)` for `reps ≥ 0`
(tools.go lines 22-65): the loop, then the sink and the send. -/
def RecordHostCPUUsage (parseFloat : GoString → Float64) (probes : Nat → CmdResult)
    (reps : Nat) (nap : Int) (sink : Sink) : Except Crash (Finished (List Float64)) :=
  let st : CPUState :=
    { cpuData := List.replicate reps (.finite 0), success := true, trace := [] }
  match cpuLoop parseFloat probes nap reps 0 st with
  | .error c => .error c
  | .ok st' => .ok (writeAndReport st'.cpuData st'.success st'.trace sink)

/-! ## `RecordTraffic` -/

/-- A maximal run of digits followed by the literal " MiB)": what is left of
the pattern after the `.` of the group, `\d+ MiB\)`. The digits are returned. -/
def digitsThenMiB (s : GoString) : Option GoString :=
  let ds := s.takeWhile Char.isDigit
  if !ds.isEmpty && startsWith (s.dropWhile Char.isDigit) " MiB)".toList then some ds else none

/-- The group `(\d+.\d+)` and the literal after it, once the digits `acc` of
the first `\d+` are read. The first `\d+` is greedy: one more digit is tried
first; otherwise the next character is the `.` (any character but a newline). -/
def afterDigits (acc : GoString) : GoString → Option GoString
  | [] => none
  | c :: cs =>
    match (if c.isDigit then afterDigits (acc ++ [c]) cs else none) with
    | some cap => some cap
    | none =>
      if c != '\n' then (digitsThenMiB cs).map fun ds => acc ++ [c] ++ ds
      else none

/-- The pattern `\((\d+.\d+) MiB\)` matched at the start of the input; the text
of the group is returned. -/
def parenMiB : GoString → Option GoString
  | '(' :: c :: cs => if c.isDigit then afterDigits [c] cs else none
  | _ => none

/-- The pattern `.*\((\d+.\d+) MiB\)` matched at the start of the input: `.*`
is greedy and does not cross a newline. Returns the text `.*` took and the text
of the group. -/
def dotStarParenMiB : GoString → Option (GoString × GoString)
  | [] => (parenMiB []).map fun cap => ([], cap)
  | c :: cs =>
    match (if c != '\n' then dotStarParenMiB cs else none) with
    | some (skipped, cap) => some (c :: skipped, cap)
    | none => (parenMiB (c :: cs)).map fun cap => ([], cap)

/-- Go's `FindStringSubmatch` for the regular expression `tag.*\((\d+.\d+) MiB\)`
with a literal non-empty `tag`: the leftmost match, as the slice of the whole
match and the group; `none` is Go's `nil`. -/
def FindStringSubmatch (tag : GoString) : GoString → Option (List GoString)
  | [] => none
  | c :: cs =>
    match (if startsWith (c :: cs) tag then dotStarParenMiB ((c :: cs).drop tag.length)
           else none) with
    | some (skipped, cap) => some [tag ++ skipped ++ '(' :: cap ++ " MiB)".toList, cap]
    | none => FindStringSubmatch tag cs

/-- The regular expression `reTX`. -/
def reTX : GoString → Option (List GoString) :=
  FindStringSubmatch "TX".toList

/-- The regular expression `reRX`. -/
def reRX : GoString → Option (List GoString) :=
  FindStringSubmatch "RX".toList

/-- The value `match[1]` parsed, or the zero value of the variable when there
is no match (tools.go lines 92-98 and 99-105). -/
def parseMatch (parseFloat : GoString → Float64) (m : Option (List GoString)) :
    Except Panic Float64 :=
  match m with
  | none => .ok (.finite 0)
  | some groups => do
    let text ← index groups 1
    pure (parseFloat text)

/-- The Sample one iteration of `RecordTraffic` appends (tools.go lines 91-106).
The error of the query is not consulted. -/
def trafficSample (parseFloat : GoString → Float64) (out : GoString) :
    Except Panic (List Float64) := do
  let tx ← parseMatch parseFloat (reTX out)
  let rx ← parseMatch parseFloat (reRX out)
  pure [rx, tx]

/-- The local variables of `RecordTraffic` and the events so far. -/
structure TrafficState where
  rxtxData : List (List Float64)
  success : Bool
  trace : List Event
  deriving DecidableEq, Repr

/-- One iteration of the loop of `RecordTraffic` (tools.go lines 83-107). -/
def trafficIteration (parseFloat : GoString → Float64) (nap : Int) (i : Nat) (r : CmdResult)
    (st : TrafficState) : Except Crash TrafficState :=
  let trace := st.trace ++ [Event.query i]
  let success := if r.err then false else st.success
  match trafficSample parseFloat r.out with
  | .error p => .error { panic := p, trace := trace }
  | .ok sample =>
    .ok { rxtxData := st.rxtxData ++ [sample], success := success,
          trace := trace ++ [Event.sleep (napDuration nap)] }

/-- The loop `for i := 0; i < reps; i++` of `RecordTraffic`, with `n`
iterations left to run from index `i`. -/
def trafficLoop (parseFloat : GoString → Float64) (probes : Nat → CmdResult) (nap : Int) :
    Nat → Nat → TrafficState → Except Crash TrafficState
  | 0, _, st => .ok st
  | n + 1, i, st =>
    match trafficIteration parseFloat nap i (probes i) st with
    | .error c => .error c
    | .ok st' => trafficLoop parseFloat probes nap n (i + 1) st'

/-- The function `RecordTraffic(filename, reps, nap, c)` for `reps ≥ 0`
(tools.go lines 73-126): the loop, then the sink and the send. -/
def RecordTraffic (parseFloat : GoString → Float64) (probes : Nat → CmdResult)
    (reps : Nat) (nap : Int) (sink : Sink) : Except Crash (Finished (List (List Float64))) :=
  let st : TrafficState := { rxtxData := [], success := true, trace := [] }
  match trafficLoop parseFloat probes nap reps 0 st with
  | .error c => .error c
  | .ok st' => .ok (writeAndReport st'.rxtxData st'.success st'.trace sink)

/-! ## `GetCRIStatsFromVM` -/

/-- The function `GetCRIStatsFromVM(destinationDir, c)` (tools.go lines
132-159), as its events: `createErr` tells whether `os.Create` fails and
`writeErr` is what `f.Write` returns on a created file. When the file was not
created `f` is nil and `f.Write` returns `os.ErrInvalid`. The error sent is the
one of the write; the error of the `ssh` command and the one of `os.Create` are
logged only. -/
def GetCRIStatsFromVM (createErr : Bool) (writeErr : GoError) : List Event :=
  let err : GoError := if createErr then some "invalid argument" else writeErr
  [Event.query 0, Event.create, Event.write, Event.sendErr err]

/-! ## The sink content: `json.MarshalIndent` and its decoding -/

/-- A line break of the indented output: a newline and `depth` copies of the
indent " ". -/
def newline (depth : Nat) : GoString :=
  '\n' :: List.replicate depth ' '

/-- The JSON text of one float64: `formatFloat` is the shortest decimal Go
writes for a finite value (`strconv.AppendFloat` with precision -1); NaN and
the infinities have none (`UnsupportedValueError`). -/
def encodeFloat (formatFloat : ℚ → GoString) : Float64 → Option GoString
  | .finite q => some (formatFloat q)
  | _ => none

/-- The JSON texts of the elements of a `[]float64`, or `none` when one of them
cannot be encoded. -/
def encodeFloats (formatFloat : ℚ → GoString) : List Float64 → Option (List GoString)
  | [] => some []
  | x :: xs =>
    match encodeFloat formatFloat x, encodeFloats formatFloat xs with
    | some a, some rest => some (a :: rest)
    | _, _ => none

/-- An indented JSON array at nesting `depth` of items already encoded: `[]`
when there is none, else one item a line, one indent deeper. -/
def encodeArray (depth : Nat) : List GoString → GoString
  | [] => "[]".toList
  | x :: xs =>
    '[' :: newline (depth + 1) ++ x ++
      (xs.flatMap fun y => ',' :: newline (depth + 1) ++ y) ++ newline depth ++ [']']

/-- The text `json.MarshalIndent(v, "", " ")` gives for a `[]float64` at nesting
`depth`: `null` for a nil slice, an indented array otherwise; `none` is the
error it returns when a value is NaN or infinite. -/
def marshalIndentFloats (formatFloat : ℚ → GoString) (depth : Nat) (isNil : Bool)
    (v : List Float64) : Option GoString :=
  if isNil then some "null".toList
  else (encodeFloats formatFloat v).map (encodeArray depth)

/-- The JSON texts of the rows of a `[][]float64`; each row is a non-nil slice. -/
def encodeRows (formatFloat : ℚ → GoString) : List (List Float64) → Option (List GoString)
  | [] => some []
  | r :: rs =>
    match marshalIndentFloats formatFloat 1 false r, encodeRows formatFloat rs with
    | some a, some rest => some (a :: rest)
    | _, _ => none

/-- The text `json.MarshalIndent(v, "", " ")` gives for a `[][]float64`. -/
def marshalIndentRows (formatFloat : ℚ → GoString) (isNil : Bool)
    (v : List (List Float64)) : Option GoString :=
  if isNil then some "null".toList
  else (encodeRows formatFloat v).map (encodeArray 0)

/-- The bytes `RecordHostCPUUsage` hands to `ioutil.WriteFile` (tools.go lines
57-58): `cpuData` comes from `make` and is never nil; the error of
`json.MarshalIndent` is dropped, and with it the bytes are nil. -/
def jsonCPU (formatFloat : ℚ → GoString) (cpuData : List Float64) : GoString :=
  (marshalIndentFloats formatFloat 0 false cpuData).getD []

/-- The bytes `RecordTraffic` hands to `ioutil.WriteFile` (tools.go lines
118-119): `rxtxData` is declared without a value and is nil until the first
`append`; the error of `json.MarshalIndent` is dropped. -/
def jsonRxTx (formatFloat : ℚ → GoString) (rxtxData : List (List Float64)) : GoString :=
  (marshalIndentRows formatFloat rxtxData.isEmpty rxtxData).getD []

/-- The tokens of a JSON text made of arrays, numbers and `null`. -/
inductive Token where
  | lbrack
  | rbrack
  | comma
  | literal (text : GoString)
  deriving DecidableEq, Repr

/-- JSON white space: space, tab, line feed, carriage return. -/
def isJSONSpace (c : Char) : Bool :=
  c == ' ' || c == '\t' || c == '\n' || c == '\r'

/-- The literal read so far (`cur`, reversed) put in front of the tokens that
follow, when there is one. -/
def flushLiteral (cur : GoString) (rest : List Token) : List Token :=
  match cur with
  | [] => rest
  | c :: cs => Token.literal (c :: cs).reverse :: rest

/-- The scan of a JSON text into tokens: brackets and commas stand alone, white
space separates, and every other run of characters is a literal. -/
def tokenScan : GoString → GoString → List Token
  | [], cur => flushLiteral cur []
  | c :: cs, cur =>
    if isJSONSpace c then flushLiteral cur (tokenScan cs [])
    else if c == '[' then flushLiteral cur (Token.lbrack :: tokenScan cs [])
    else if c == ']' then flushLiteral cur (Token.rbrack :: tokenScan cs [])
    else if c == ',' then flushLiteral cur (Token.comma :: tokenScan cs [])
    else tokenScan cs (c :: cur)

/-- The integer part of a JSON number, `0` or a digit run not starting with 0,
taken off the front. -/
def dropInt : GoString → Option GoString
  | '0' :: rest => some rest
  | c :: rest => if c.isDigit then some (rest.dropWhile Char.isDigit) else none
  | [] => none

/-- The optional fraction of a JSON number, `.` and a digit run, taken off the
front. -/
def dropFrac : GoString → Option GoString
  | '.' :: c :: rest => if c.isDigit then some (rest.dropWhile Char.isDigit) else none
  | '.' :: [] => none
  | s => some s

/-- A non-empty digit run taken off the front. -/
def dropDigits : GoString → Option GoString
  | c :: rest => if c.isDigit then some (rest.dropWhile Char.isDigit) else none
  | [] => none

/-- The optional exponent of a JSON number, `e` or `E`, an optional sign and a
digit run, taken off the front. -/
def dropExp : GoString → Option GoString
  | c :: rest =>
    if c == 'e' || c == 'E' then
      match rest with
      | '+' :: ds => dropDigits ds
      | '-' :: ds => dropDigits ds
      | ds => dropDigits ds
    else some (c :: rest)
  | [] => some []

/-- Whether a text is a JSON number: `-? int frac? exp?`. -/
def isJSONNumber (s : GoString) : Bool :=
  let unsigned := match s with
    | '-' :: rest => rest
    | _ => s
  match (dropInt unsigned).bind dropFrac |>.bind dropExp with
  | some [] => true
  | _ => false

/-- A literal decoded into a `float64` element: `null` leaves the element at
its zero value, a number is converted by `strconv.ParseFloat`, whose range
error (an infinite result) is an error of the decoding; anything else is an
error. -/
def decodeFloat (parseFloat : GoString → Float64) (text : GoString) : Option Float64 :=
  if text = "null".toList then some (.finite 0)
  else if isJSONNumber text then
    match parseFloat text with
    | .finite q => some (.finite q)
    | _ => none
  else none

/-- The elements of an array of numbers after its `[`, up to its `]`; returns
the elements and the tokens after the `]`. -/
def decodeElems (parseFloat : GoString → Float64) :
    List Token → Option (List Float64 × List Token)
  | Token.literal text :: Token.comma :: rest =>
    match decodeFloat parseFloat text, decodeElems parseFloat rest with
    | some x, some (xs, after) => some (x :: xs, after)
    | _, _ => none
  | Token.literal text :: Token.rbrack :: rest =>
    (decodeFloat parseFloat text).map fun x => ([x], rest)
  | _ => none

/-- A value decoded into a `[]float64`, taken off the front of the tokens:
`null` gives the nil slice, `[` ... `]` its elements. -/
def decodeSlice (parseFloat : GoString → Float64) :
    List Token → Option (List Float64 × List Token)
  | Token.literal text :: rest => if text = "null".toList then some ([], rest) else none
  | Token.lbrack :: Token.rbrack :: rest => some ([], rest)
  | Token.lbrack :: rest => decodeElems parseFloat rest
  | _ => none

/-- The function `json.Unmarshal(data, &v)` for `v` of type `[]float64`: the
whole text is one value. -/
def unmarshalFloats (parseFloat : GoString → Float64) (data : GoString) :
    Option (List Float64) :=
  match decodeSlice parseFloat (tokenScan data []) with
  | some (v, []) => some v
  | _ => none

/-- The rows of an array of arrays after its `[`, up to its `]`, with `fuel`
bounding the number of rows read. -/
def decodeRowsFuel (parseFloat : GoString → Float64) :
    Nat → List Token → Option (List (List Float64) × List Token)
  | 0, _ => none
  | fuel + 1, tokens =>
    match decodeSlice parseFloat tokens with
    | some (row, Token.comma :: rest) =>
      match decodeRowsFuel parseFloat fuel rest with
      | some (rows, after) => some (row :: rows, after)
      | none => none
    | some (row, Token.rbrack :: rest) => some ([row], rest)
    | _ => none

/-- The function `json.Unmarshal(data, &v)` for `v` of type `[][]float64`. Every
row takes at least one token, so the number of tokens is fuel enough. -/
def unmarshalRows (parseFloat : GoString → Float64) (data : GoString) :
    Option (List (List Float64)) :=
  let tokens := tokenScan data []
  match tokens with
  | [Token.literal text] => if text = "null".toList then some [] else none
  | [Token.lbrack, Token.rbrack] => some []
  | Token.lbrack :: rest =>
    match decodeRowsFuel parseFloat rest.length rest with
    | some (rows, []) => some rows
    | _ => none
  | _ => none

/-! ## Notions used in the statements and proofs about the sink content -/

/-- A character that ends a literal: white space, a bracket or a comma. -/
def isBreak (c : Char) : Bool :=
  isJSONSpace c || c == '[' || c == ']' || c == ','

/-- A character of a JSON number. -/
def isNumberChar (c : Char) : Bool :=
  c.isDigit || c == '-' || c == '+' || c == '.' || c == 'e' || c == 'E'

/-- A text `x` scans to the tokens `toks` wherever a break follows it. -/
def Scans (x : GoString) (toks : List Token) : Prop :=
  ∀ (c : Char) (rest : GoString), isBreak c = true →
    tokenScan (x ++ c :: rest) [] = toks ++ tokenScan (c :: rest) []

/-- The tokens of an array whose items have the tokens `toks`. -/
def arrayTokens : List (List Token) → List Token
  | [] => [Token.lbrack, Token.rbrack]
  | t :: ts => Token.lbrack :: t ++ (ts.flatMap fun u => Token.comma :: u) ++ [Token.rbrack]

/-- The text `s` is `r` after a run of number characters. -/
def NumberRun (s r : GoString) : Prop :=
  ∃ p : GoString, s = p ++ r ∧ ∀ c ∈ p, isNumberChar c = true

/-- The value `x` is finite and its JSON text reads back as `x`: the text
`formatFloat` writes for it is a JSON number that `parseFloat` converts to the
same value (the law of `strconv` for the shortest formatting). -/
def FormatsExactly (formatFloat : ℚ → GoString) (parseFloat : GoString → Float64)
    (x : Float64) : Prop :=
  ∃ q : ℚ, x = .finite q ∧ isJSONNumber (formatFloat q) = true ∧
    parseFloat (formatFloat q) = .finite q

/-- The tokens of the items of an array of numbers. -/
def literalTokens (texts : List GoString) : List (List Token) :=
  texts.map fun t => [Token.literal t]

/-- The tokens `toks` decode to the row `row`, whatever tokens follow. -/
def DecodesTo (parse : GoString → Float64) (toks : List Token) (row : List Float64) : Prop :=
  toks ≠ [] ∧ ∀ more, decodeSlice parse (toks ++ more) = some (row, more)

/-- The text `x` scans to the tokens `toks`, whatever text follows. -/
def ScansAlways (x : GoString) (toks : List Token) : Prop :=
  ∀ rest, tokenScan (x ++ rest) [] = toks ++ tokenScan rest []

/-! ## Reading a run -/

/-- The events of a run, finished or crashed. -/
def runTrace {σ : Type} (run : Except Crash (Finished σ)) : List Event :=
  match run with
  | .ok fin => fin.trace
  | .error c => c.trace

/-- Whether an event is a send on the report channel. -/
def Event.isSend : Event → Bool
  | .sendBool _ => true
  | .sendErr _ => true
  | _ => false

/-- Whether an event is a call of `time.Sleep`. -/
def Event.isSleep : Event → Bool
  | .sleep _ => true
  | _ => false

/-- Whether one iteration of `RecordHostCPUUsage` on the probe result `r`
stores a value (rather than panics). -/
def cpuSampleOk (parseFloat : GoString → Float64) (r : CmdResult) : Bool :=
  match cpuSample parseFloat r with
  | .ok _ => true
  | .error _ => false

/-! ## Concrete inputs -/

/-- The number written by a string of decimal digits. -/
def digitsValue (ds : GoString) : Nat :=
  ds.foldl (fun n c => 10 * n + (c.toNat - '0'.toNat)) 0

/-- The value `strconv.ParseFloat` gives to a literal `digits.digits` that a
float64 holds exactly; the concrete scenarios use it on such literals only. Any
other text counts as a syntax error here, for which Go returns 0. -/
def parseDecimal (s : GoString) : Float64 :=
  let whole := s.takeWhile Char.isDigit
  match s.dropWhile Char.isDigit with
  | '.' :: frac =>
    if !whole.isEmpty && !frac.isEmpty && frac.all Char.isDigit then
      .finite (mkRat (digitsValue (whole ++ frac)) (10 ^ frac.length))
    else .finite 0
  | _ => .finite 0

/-- The value `strconv.ParseFloat` gives to a literal `-?digits(.digits)?` that
a float64 holds exactly; the concrete scenarios use it on such literals only.
Any other text counts as a syntax error here, for which Go returns 0. -/
def parseNumber (s : GoString) : Float64 :=
  let negative := s.head? == some '-'
  let body := if negative then s.tail else s
  let whole := body.takeWhile Char.isDigit
  let frac := match body.dropWhile Char.isDigit with
    | '.' :: f => f
    | _ => []
  let wellFormed := !whole.isEmpty && frac.all Char.isDigit &&
    (body.dropWhile Char.isDigit == [] || !frac.isEmpty)
  if wellFormed then
    .finite (mkRat ((if negative then -1 else 1) * (digitsValue (whole ++ frac) : Int))
      (10 ^ frac.length))
  else .finite 0

/-- The text `strconv.AppendFloat` writes for the values of the concrete
scenarios; no text for any other value. -/
def scenarioFormat (q : ℚ) : GoString :=
  if q = 12.5 then "12.5".toList
  else if q = -1 then "-1".toList
  else if q = -2 then "-2".toList
  else if q = 1.5 then "1.5".toList
  else if q = 0 then "0".toList
  else []

/-- One line of `top -bn1 -u qemu` output for a qemu process at 12.5 % CPU. -/
def topLine : GoString :=
  " 1234 qemu 20 0 1000 500 100 S 12.5 1.0 0:01.00 qemu-kvm".toList

/-- The scenario of the specification: success (12.5), query failure, target
absent; every later query fails. -/
def scenarioProbes : Nat → CmdResult
  | 0 => { out := topLine, err := false }
  | 1 => { out := [], err := true }
  | 2 => { out := "top - 10:00:00 up 1 day".toList, err := false }
  | _ => { out := [], err := true }

/-- A sink whose file is created and written without error. -/
def writableSink : Sink :=
  { createErr := false, writeErr := false }

/-- A `top` output that names qemu and stops there, returned without error. -/
def shortOutput : CmdResult :=
  { out := "qemu".toList, err := false }

/-- Probe results: the first query fails, every later one returns just "qemu". -/
def failThenShort : Nat → CmdResult
  | 0 => { out := [], err := true }
  | _ => shortOutput

/-- An `ifconfig crc` result: the command failed after printing a TX line. -/
def failedWithOutput : CmdResult :=
  { out := "TX packets 50 bytes 1572864 (1.5 MiB)".toList, err := true }

end tools

namespace monictl

open tools (GoError)

/-- The report channels `main` makes (monictl.go lines 72-76). -/
inductive Chan where
  | cpuChan
  | trafficChan
  | crioChan
  | nodeDesChan
  | startChan
  deriving DecidableEq, Repr

/-- The collectors of package `tools` that `main` starts as goroutines. -/
inductive Collector where
  | RecordStartTimes
  | RecordTraffic
  | RecordHostCPUUsage
  | GetCRIStatsFromVM
  | GetNodeResource
  deriving DecidableEq, Repr

/-- What `main` meets before it starts collecting: whether `os.MkdirAll` fails
for the logs directory and for the data directory, and what
`tools.IsCRCRunning()` answers. -/
structure Startup where
  mkdirLogsErr : Bool
  mkdirDataErr : Bool
  crcRunning : Bool
  deriving DecidableEq, Repr

/-- One run of the program: the goroutines started, each with the channel
handed to it, the channels received from, in order, and the exit status. -/
structure Process where
  launched : List (Collector × Chan)
  received : List Chan
  exitStatus : Nat
  deriving DecidableEq, Repr

/-- The goroutines `main` starts (monictl.go lines 82-105). -/
def launch (repeatStarts : Bool) : List (Collector × Chan) :=
  if repeatStarts then
    [(Collector.RecordStartTimes, Chan.startChan)]
  else
    [(Collector.RecordTraffic, Chan.trafficChan),
     (Collector.RecordHostCPUUsage, Chan.cpuChan),
     (Collector.GetCRIStatsFromVM, Chan.crioChan),
     (Collector.GetNodeResource, Chan.nodeDesChan)]

/-- The receives of `main` (monictl.go lines 110-140): `recv ch` is the value
that arrives on `ch` when `main` reads it. A non-nil error goes to `log.Fatalf`,
which exits with status 1; reaching the end of `main` exits with status 0.
Returns the channels read and the exit status. -/
def join (repeatStarts : Bool) (recv : Chan → GoError) : List Chan × Nat :=
  if repeatStarts then
    match recv Chan.startChan with
    | some _ => ([Chan.startChan], 1)
    | none => ([Chan.startChan], 0)
  else
    match recv Chan.trafficChan with
    | some _ => ([Chan.trafficChan], 1)
    | none =>
      match recv Chan.cpuChan with
      | some _ => ([Chan.trafficChan, Chan.cpuChan], 1)
      | none =>
        match recv Chan.crioChan with
        | some _ => ([Chan.trafficChan, Chan.cpuChan, Chan.crioChan], 1)
        | none =>
          match recv Chan.nodeDesChan with
          | some _ => ([Chan.trafficChan, Chan.cpuChan, Chan.crioChan, Chan.nodeDesChan], 1)
          | none => ([Chan.trafficChan, Chan.cpuChan, Chan.crioChan, Chan.nodeDesChan], 0)

/-- The function `main` of monictl.go, given the parsed flag `-r`
(`repeatStarts`): the exits before collecting (lines 19-21, 51-53, 56-59),
then the launch and the join. -/
def main (repeatStarts : Bool) (env : Startup) (recv : Chan → GoError) : Process :=
  if env.mkdirLogsErr then
    { launched := [], received := [], exitStatus := 1 }
  else if env.mkdirDataErr then
    { launched := [], received := [], exitStatus := 1 }
  else if !repeatStarts && !env.crcRunning then
    { launched := [], received := [], exitStatus := 1 }
  else
    { launched := launch repeatStarts,
      received := (join repeatStarts recv).1,
      exitStatus := (join repeatStarts recv).2 }

/-- Whether `main` gets as far as starting collectors. -/
def Startup.passes (env : Startup) (repeatStarts : Bool) : Bool :=
  !env.mkdirLogsErr && !env.mkdirDataErr && (repeatStarts || env.crcRunning)

/-- The order in which the steady-state join reads the channels. -/
def joinOrder : List Chan :=
  [Chan.trafficChan, Chan.cpuChan, Chan.crioChan, Chan.nodeDesChan]

/-- A start-up in which both directories are made and CRC runs. -/
def goodStartup : Startup :=
  { mkdirLogsErr := false, mkdirDataErr := false, crcRunning := true }

/-- Outcomes in which the CPU collector reports an error, the others nil. -/
def cpuFails : Chan → GoError
  | Chan.cpuChan => some "failed"
  | _ => none

end monictl

/-! # Theorems -/

namespace tools

/-! ## The loop of `RecordHostCPUUsage` -/

lemma cpuSampleOk_iff (pf : GoString → Float64) (r : CmdResult) :
    cpuSampleOk pf r = true ↔ ∃ v, cpuSample pf r = .ok v := by
  unfold cpuSampleOk
  cases cpuSample pf r <;> simp

lemma cpuSampleOk_false_iff (pf : GoString → Float64) (r : CmdResult) :
    cpuSampleOk pf r = false ↔ ∃ p, cpuSample pf r = .error p := by
  unfold cpuSampleOk
  cases cpuSample pf r <;> simp

/-- An iteration whose sample is extracted stores it at index `i`, notes a
failed query in `success`, and sleeps. -/
lemma cpuIteration_ok (pf : GoString → Float64) (nap : Int) (i : Nat) (r : CmdResult)
    (st : CPUState) (v : Float64) (h : cpuSample pf r = .ok v) :
    cpuIteration pf nap i r st = .ok
      { cpuData := st.cpuData.set i v,
        success := st.success && !r.err,
        trace := st.trace ++ [Event.query i, Event.sleep (napDuration nap)] } := by
  unfold cpuIteration
  simp only [h]
  cases r.err <;> simp

/-- An iteration whose extraction panics crashes right after its query. -/
lemma cpuIteration_error (pf : GoString → Float64) (nap : Int) (i : Nat) (r : CmdResult)
    (st : CPUState) (p : Panic) (h : cpuSample pf r = .error p) :
    cpuIteration pf nap i r st = .error { panic := p, trace := st.trace ++ [Event.query i] } := by
  unfold cpuIteration
  simp only [h]

/-- The loop on probe results none of which panics: it fills the remaining
`n` slots with the samples of the iterations `i, ..., i+n-1`, in order. -/
lemma cpuLoop_ok (pf : GoString → Float64) (probes : Nat → CmdResult) (nap : Int) :
    ∀ (n i : Nat) (st : CPUState) (filled : List Float64),
      st.cpuData = filled ++ List.replicate n (Float64.finite 0) → filled.length = i →
      (∀ k, i ≤ k → k < i + n → cpuSampleOk pf (probes k) = true) →
      ∃ vals : List Float64,
        vals.map (Except.ok : Float64 → Except Panic Float64) =
          (List.range' i n).map (fun k => cpuSample pf (probes k)) ∧
        cpuLoop pf probes nap n i st = .ok
          { cpuData := filled ++ vals,
            success := st.success && (List.range' i n).all (fun k => !(probes k).err),
            trace := st.trace ++ (List.range' i n).flatMap
              (fun k => [Event.query k, Event.sleep (napDuration nap)]) } := by
  intro n
  induction n with
  | zero =>
    intro i st filled hdata _ _
    refine ⟨[], rfl, ?_⟩
    obtain ⟨d, s, t⟩ := st
    simp only [List.replicate_zero, List.append_nil] at hdata
    simp [cpuLoop, hdata]
  | succ n ih =>
    intro i st filled hdata hlen hok
    obtain ⟨v, hv⟩ := (cpuSampleOk_iff pf (probes i)).1 (hok i (le_refl i) (by omega))
    have hset : st.cpuData.set i v = (filled ++ [v]) ++ List.replicate n (Float64.finite 0) := by
      rw [hdata, List.replicate_succ, ← hlen]
      simp
    obtain ⟨vals, hvals, hloop⟩ := ih (i + 1)
      { cpuData := st.cpuData.set i v, success := st.success && !(probes i).err,
        trace := st.trace ++ [Event.query i, Event.sleep (napDuration nap)] }
      (filled ++ [v]) hset (by simp [hlen]) (fun k h1 h2 => hok k (by omega) (by omega))
    refine ⟨v :: vals, ?_, ?_⟩
    · simp [List.range'_succ, hv, hvals]
    · simp only [cpuLoop, cpuIteration_ok pf nap i (probes i) st v hv, hloop]
      simp [List.range'_succ, Bool.and_assoc]

/-- The loop on probe results one of which panics: it crashes, and no event
but queries and sleeps is added to the trace. -/
lemma cpuLoop_error (pf : GoString → Float64) (probes : Nat → CmdResult) (nap : Int) :
    ∀ (n i : Nat) (st : CPUState),
      (∃ k, i ≤ k ∧ k < i + n ∧ cpuSampleOk pf (probes k) = false) →
      ∃ c, cpuLoop pf probes nap n i st = .error c ∧
        c.trace.countP Event.isSend = st.trace.countP Event.isSend := by
  intro n
  induction n with
  | zero =>
    rintro i st ⟨k, h1, h2, _⟩
    omega
  | succ n ih =>
    rintro i st ⟨k, h1, h2, hk⟩
    cases hi : cpuSampleOk pf (probes i) with
    | false =>
      obtain ⟨p, hp⟩ := (cpuSampleOk_false_iff pf (probes i)).1 hi
      refine ⟨{ panic := p, trace := st.trace ++ [Event.query i] }, ?_, ?_⟩
      · simp only [cpuLoop, cpuIteration_error pf nap i (probes i) st p hp]
      · simp [List.countP_append, Event.isSend]
    | true =>
      obtain ⟨v, hv⟩ := (cpuSampleOk_iff pf (probes i)).1 hi
      have hki : i + 1 ≤ k := by
        rcases Nat.lt_or_ge i k with h | h
        · exact h
        · have : k = i := by omega
          rw [this, hi] at hk
          exact absurd hk (by decide)
      obtain ⟨c, hc, hcount⟩ := ih (i + 1)
        { cpuData := st.cpuData.set i v, success := st.success && !(probes i).err,
          trace := st.trace ++ [Event.query i, Event.sleep (napDuration nap)] }
        ⟨k, hki, by omega, hk⟩
      refine ⟨c, by simp only [cpuLoop, cpuIteration_ok pf nap i (probes i) st v hv, hc], ?_⟩
      rw [hcount]
      simp [List.countP_append, Event.isSend]

/-! ## The loop of `RecordTraffic` -/

/-- A match of the traffic patterns is a slice of two strings. -/
lemma FindStringSubmatch_groups (tag : GoString) :
    ∀ (s : GoString) (groups : List GoString), FindStringSubmatch tag s = some groups →
      ∃ whole cap, groups = [whole, cap] := by
  intro s
  induction s with
  | nil => intro groups h; simp [FindStringSubmatch] at h
  | cons c cs ih =>
    intro groups h
    unfold FindStringSubmatch at h
    split at h
    · rename_i skipped cap _
      exact ⟨_, cap, (Option.some.inj h).symm⟩
    · exact ih groups h

/-- Reading `match[1]` never panics on a match of the traffic patterns. -/
lemma parseMatch_ok (pf : GoString → Float64) (tag out : GoString) :
    (FindStringSubmatch tag out = none ∧
      parseMatch pf (FindStringSubmatch tag out) = .ok (.finite 0)) ∨
    (∃ whole cap, FindStringSubmatch tag out = some [whole, cap] ∧
      parseMatch pf (FindStringSubmatch tag out) = .ok (pf cap)) := by
  cases h : FindStringSubmatch tag out with
  | none => exact Or.inl ⟨rfl, rfl⟩
  | some groups =>
    obtain ⟨whole, cap, rfl⟩ := FindStringSubmatch_groups tag out groups h
    exact Or.inr ⟨whole, cap, rfl, rfl⟩

/-- The Sample of an iteration of `RecordTraffic` is always a pair `[rx, tx]`. -/
lemma trafficSample_ok (pf : GoString → Float64) (out : GoString) :
    ∃ rx tx, trafficSample pf out = .ok [rx, tx] ∧
      parseMatch pf (reRX out) = .ok rx ∧ parseMatch pf (reTX out) = .ok tx := by
  have htx : ∃ tx, parseMatch pf (reTX out) = .ok tx := by
    rcases parseMatch_ok pf "TX".toList out with ⟨_, h⟩ | ⟨_, _, _, h⟩ <;> exact ⟨_, h⟩
  have hrx : ∃ rx, parseMatch pf (reRX out) = .ok rx := by
    rcases parseMatch_ok pf "RX".toList out with ⟨_, h⟩ | ⟨_, _, _, h⟩ <;> exact ⟨_, h⟩
  obtain ⟨tx, htx⟩ := htx
  obtain ⟨rx, hrx⟩ := hrx
  refine ⟨rx, tx, ?_, hrx, htx⟩
  simp only [trafficSample, htx, hrx]
  rfl

/-- An iteration of `RecordTraffic` appends its Sample, notes a failed query
in `success`, and sleeps. -/
lemma trafficIteration_ok (pf : GoString → Float64) (nap : Int) (i : Nat) (r : CmdResult)
    (st : TrafficState) (sample : List Float64) (h : trafficSample pf r.out = .ok sample) :
    trafficIteration pf nap i r st = .ok
      { rxtxData := st.rxtxData ++ [sample],
        success := st.success && !r.err,
        trace := st.trace ++ [Event.query i, Event.sleep (napDuration nap)] } := by
  unfold trafficIteration
  simp only [h]
  cases r.err <;> simp

/-- The loop of `RecordTraffic` never panics: it appends the Samples of the
iterations `i, ..., i+n-1`, in order. -/
lemma trafficLoop_ok (pf : GoString → Float64) (probes : Nat → CmdResult) (nap : Int) :
    ∀ (n i : Nat) (st : TrafficState),
      ∃ samples : List (List Float64),
        samples.map (Except.ok : List Float64 → Except Panic (List Float64)) =
          (List.range' i n).map (fun k => trafficSample pf (probes k).out) ∧
        trafficLoop pf probes nap n i st = .ok
          { rxtxData := st.rxtxData ++ samples,
            success := st.success && (List.range' i n).all (fun k => !(probes k).err),
            trace := st.trace ++ (List.range' i n).flatMap
              (fun k => [Event.query k, Event.sleep (napDuration nap)]) } := by
  intro n
  induction n with
  | zero =>
    intro i st
    refine ⟨[], rfl, ?_⟩
    obtain ⟨d, s, t⟩ := st
    simp [trafficLoop]
  | succ n ih =>
    intro i st
    obtain ⟨rx, tx, hv, _, _⟩ := trafficSample_ok pf (probes i).out
    obtain ⟨samples, hsamples, hloop⟩ := ih (i + 1)
      { rxtxData := st.rxtxData ++ [[rx, tx]], success := st.success && !(probes i).err,
        trace := st.trace ++ [Event.query i, Event.sleep (napDuration nap)] }
    refine ⟨[rx, tx] :: samples, ?_, ?_⟩
    · simp [List.range'_succ, hv, hsamples]
    · simp only [trafficLoop, trafficIteration_ok pf nap i (probes i) st [rx, tx] hv, hloop]
      simp [List.range'_succ, Bool.and_assoc]

/-! ## Whole runs -/

/-- The events of the loop of a collector that ran `reps` iterations. -/
lemma countP_isSend_loop (nap : Int) (l : List Nat) :
    (l.flatMap (fun k => [Event.query k, Event.sleep (napDuration nap)])).countP
      Event.isSend = 0 := by
  induction l with
  | nil => rfl
  | cons a l ih =>
    simp only [List.flatMap_cons, List.countP_append, ih]
    rfl

lemma countP_isSleep_loop (nap : Int) (l : List Nat) :
    (l.flatMap (fun k => [Event.query k, Event.sleep (napDuration nap)])).countP
      Event.isSleep = l.length := by
  induction l with
  | nil => rfl
  | cons a l ih =>
    simp only [List.flatMap_cons, List.countP_append, ih, List.length_cons]
    simp [List.countP_cons, Event.isSleep]
    omega

/-- A run of `RecordHostCPUUsage` on probe results none of which panics. -/
lemma RecordHostCPUUsage_ok (pf : GoString → Float64) (probes : Nat → CmdResult)
    (reps : Nat) (nap : Int) (sink : Sink)
    (hok : ∀ i, i < reps → cpuSampleOk pf (probes i) = true) :
    ∃ series : List Float64,
      series.map (Except.ok : Float64 → Except Panic Float64) =
        (List.range reps).map (fun k => cpuSample pf (probes k)) ∧
      RecordHostCPUUsage pf probes reps nap sink = .ok
        (writeAndReport series ((List.range reps).all (fun k => !(probes k).err))
          ((List.range reps).flatMap
            (fun k => [Event.query k, Event.sleep (napDuration nap)])) sink) := by
  obtain ⟨vals, hvals, hloop⟩ := cpuLoop_ok pf probes nap reps 0
    { cpuData := List.replicate reps (.finite 0), success := true, trace := [] } []
    rfl rfl (fun k _ h => hok k (by omega))
  refine ⟨vals, by rw [List.range_eq_range']; exact hvals, ?_⟩
  unfold RecordHostCPUUsage
  simp only [hloop, List.range_eq_range']
  simp

/-- A run of `RecordTraffic`. -/
lemma RecordTraffic_ok (pf : GoString → Float64) (probes : Nat → CmdResult)
    (reps : Nat) (nap : Int) (sink : Sink) :
    ∃ series : List (List Float64),
      series.map (Except.ok : List Float64 → Except Panic (List Float64)) =
        (List.range reps).map (fun k => trafficSample pf (probes k).out) ∧
      RecordTraffic pf probes reps nap sink = .ok
        (writeAndReport series ((List.range reps).all (fun k => !(probes k).err))
          ((List.range reps).flatMap
            (fun k => [Event.query k, Event.sleep (napDuration nap)])) sink) := by
  obtain ⟨samples, hsamples, hloop⟩ := trafficLoop_ok pf probes nap reps 0
    { rxtxData := [], success := true, trace := [] }
  refine ⟨samples, by rw [List.range_eq_range']; exact hsamples, ?_⟩
  unfold RecordTraffic
  simp only [hloop, List.range_eq_range']
  simp

/-- The value `writeAndReport` sends: the loop's `success`, unless the sink
failed. -/
lemma writeAndReport_success {σ : Type} (series : σ) (success : Bool) (trace : List Event)
    (sink : Sink) :
    (writeAndReport series success trace sink).success =
      (success && !sink.createErr && !sink.writeErr) := by
  unfold writeAndReport
  cases sink.createErr <;> cases sink.writeErr <;> cases success <;> rfl

lemma writeAndReport_trace {σ : Type} (series : σ) (success : Bool) (trace : List Event)
    (sink : Sink) :
    (writeAndReport series success trace sink).trace =
      trace ++ [Event.create, Event.write,
        Event.sendBool (writeAndReport series success trace sink).success] := by
  rfl

lemma writeAndReport_series {σ : Type} (series : σ) (success : Bool) (trace : List Event)
    (sink : Sink) :
    (writeAndReport series success trace sink).series = series := by
  rfl

/-- Element `i` of a list of samples that were all extracted. -/
lemma element_of_map_ok {α : Type} (series : List α) (f : Nat → Except Panic α) (reps i : Nat)
    (h : series.map (Except.ok : α → Except Panic α) = (List.range reps).map f)
    (hi : i < reps) :
    series.length = reps ∧ ∃ v, series.get? i = some v ∧ f i = .ok v := by
  have hlen : series.length = reps := by
    have := congrArg List.length h
    simpa using this
  refine ⟨hlen, ?_⟩
  have hget := congrArg (fun l => l.get? i) h
  simp only [List.get?_eq_getElem?, List.getElem?_map] at hget
  rw [List.getElem?_range hi] at hget
  cases hs : series[i]? with
  | none => rw [hs] at hget; simp at hget
  | some v =>
    rw [hs] at hget
    refine ⟨v, by simp [hs], ?_⟩
    simpa using hget.symm

/-- On probe results none of which panics, the Series of `RecordHostCPUUsage`
has `reps` elements and element `i` is the value of iteration `i`: -1 after a
failed query, -2 when the output lacks "qemu". -/
lemma RecordHostCPUUsage_series (pf : GoString → Float64) (probes : Nat → CmdResult)
    (reps : Nat) (nap : Int) (sink : Sink)
    (hok : ∀ i, i < reps → cpuSampleOk pf (probes i) = true) (i : Nat) (hi : i < reps) :
    ∃ fin v, RecordHostCPUUsage pf probes reps nap sink = .ok fin ∧
      fin.series.length = reps ∧ fin.series.get? i = some v ∧
      cpuSample pf (probes i) = .ok v ∧
      ((probes i).err = true → v = .finite (-1)) ∧
      ((probes i).err = false → Contains (probes i).out "qemu".toList = false →
        v = .finite (-2)) := by
  obtain ⟨series, hseries, hrun⟩ := RecordHostCPUUsage_ok pf probes reps nap sink hok
  obtain ⟨hlen, v, hget, hv⟩ := element_of_map_ok series
    (fun k => cpuSample pf (probes k)) reps i hseries hi
  refine ⟨_, v, hrun, hlen, hget, hv, ?_, ?_⟩
  · intro herr
    simp only [cpuSample, herr, if_true] at hv
    exact (Except.ok.inj hv).symm
  · intro herr hc
    simp only [cpuSample, herr, hc, Bool.false_eq_true, if_false, Bool.not_false, if_true] at hv
    exact (Except.ok.inj hv).symm

/-! ## The two indexing steps of `RecordHostCPUUsage` -/

lemma splitScan_length_pos (sep : GoString) :
    ∀ (s : GoString) (skip : Nat) (cur : GoString), 0 < (splitScan sep s skip cur).length := by
  intro s
  induction s with
  | nil => intro skip cur; simp [splitScan]
  | cons c cs ih =>
    intro skip cur
    cases skip with
    | zero =>
      unfold splitScan
      split
      · simp
      · exact ih 0 _
    | succ k =>
      unfold splitScan
      exact ih k cur

lemma splitScan_length_of_contains (sep : GoString) (hsep : sep ≠ []) :
    ∀ (s cur : GoString), Contains s sep = true → 2 ≤ (splitScan sep s 0 cur).length := by
  intro s
  induction s with
  | nil =>
    intro cur h
    cases sep with
    | nil => exact absurd rfl hsep
    | cons p ps => simp [Contains, startsWith] at h
  | cons c cs ih =>
    intro cur h
    unfold splitScan
    split
    · have := splitScan_length_pos sep cs (sep.length - 1) []
      simp only [List.length_cons]
      omega
    · rename_i hstart
      unfold Contains at h
      simp only [hstart, Bool.false_or] at h
      exact ih _ h

/-- Indexing a slice within its length does not panic. -/
lemma index_ok_of_lt {α : Type} (xs : List α) (i : Nat) (h : i < xs.length) :
    ∃ x, index xs i = .ok x := by
  unfold index
  rw [List.get?_eq_get h]
  exact ⟨_, rfl⟩

/-- Indexing a slice at or past its length panics. -/
lemma index_error_of_le {α : Type} (xs : List α) (i : Nat) (h : xs.length ≤ i) :
    index xs i = .error (.indexOutOfRange i xs.length) := by
  unfold index
  rw [List.get?_eq_none.2 h]

/-- The first indexing step, `strings.Split(out, "qemu")[1]`, is in range
whenever the output contains "qemu". -/
lemma split_index_one_ok (out : GoString) (h : Contains out "qemu".toList = true) :
    ∃ outTail, index (Split out "qemu".toList) 1 = .ok outTail := by
  apply index_ok_of_lt
  have := splitScan_length_of_contains "qemu".toList (by decide) out [] h
  exact this

/-- When an iteration of `RecordHostCPUUsage` panics: the query returned without
error, its output contains "qemu", and fewer than seven fields follow the first
"qemu". The panic is the one of `strings.Fields(outTail)[6]`. -/
lemma cpuSample_error_iff (pf : GoString → Float64) (r : CmdResult) (p : Panic) :
    cpuSample pf r = .error p ↔
      r.err = false ∧ Contains r.out "qemu".toList = true ∧
      ∃ outTail, index (Split r.out "qemu".toList) 1 = .ok outTail ∧
        (Fields outTail).length ≤ 6 ∧ p = .indexOutOfRange 6 (Fields outTail).length := by
  unfold cpuSample
  cases herr : r.err with
  | true => simp
  | false =>
    cases hc : Contains r.out "qemu".toList with
    | false => simp
    | true =>
      obtain ⟨outTail, htail⟩ := split_index_one_ok r.out hc
      simp only [Bool.false_eq_true, if_false, Bool.not_true, true_and, cpuExtract, htail]
      rcases Nat.lt_or_ge 6 (Fields outTail).length with hlt | hge
      · obtain ⟨field, hfield⟩ := index_ok_of_lt (Fields outTail) 6 hlt
        constructor
        · intro h
          simp [bind, Except.bind, hfield, pure, Except.pure] at h
        · rintro ⟨t, ht, hle, _⟩
          obtain rfl : outTail = t := Except.ok.inj ht
          omega
      · have hfield := index_error_of_le (Fields outTail) 6 hge
        constructor
        · intro h
          simp only [bind, Except.bind, hfield] at h
          exact ⟨outTail, rfl, hge, (Except.error.inj h).symm⟩
        · rintro ⟨t, ht, _, hp⟩
          obtain rfl : outTail = t := Except.ok.inj ht
          simp only [bind, Except.bind, hfield, hp]

/-! ## Scanning the indented JSON text -/

lemma isBreak_false_of_isNumberChar (c : Char) (h : isNumberChar c = true) :
    isBreak c = false := by
  have hne : ∀ d : Char, isNumberChar d = false → c ≠ d := by
    rintro d hd rfl
    rw [h] at hd
    exact absurd hd (by decide)
  have h1 := hne ' ' (by decide)
  have h2 := hne '\t' (by decide)
  have h3 := hne '\n' (by decide)
  have h4 := hne '\r' (by decide)
  have h5 := hne '[' (by decide)
  have h6 := hne ']' (by decide)
  have h7 := hne ',' (by decide)
  simp [isBreak, isJSONSpace, h1, h2, h3, h4, h5, h6, h7]

lemma tokenScan_of_not_break (c : Char) (cs cur : GoString) (h : isBreak c = false) :
    tokenScan (c :: cs) cur = tokenScan cs (c :: cur) := by
  simp only [isBreak, Bool.or_eq_false_iff] at h
  obtain ⟨⟨⟨h1, h2⟩, h3⟩, h4⟩ := h
  simp [tokenScan, h1, h2, h3, h4]

/-- A text without breaks is read into the literal under way. -/
lemma tokenScan_plain (t : GoString) (ht : ∀ c ∈ t, isBreak c = false) :
    ∀ (rest cur : GoString), tokenScan (t ++ rest) cur = tokenScan rest (t.reverse ++ cur) := by
  induction t with
  | nil => intro rest cur; rfl
  | cons c cs ih =>
    intro rest cur
    have hc := ht c (List.mem_cons_self c cs)
    rw [List.cons_append, tokenScan_of_not_break c _ cur hc,
      ih (fun d hd => ht d (List.mem_cons_of_mem c hd))]
    simp

/-- At a break the literal under way is put out. -/
lemma tokenScan_at_break (c : Char) (cs cur : GoString) (h : isBreak c = true) :
    tokenScan (c :: cs) cur = flushLiteral cur (tokenScan (c :: cs) []) := by
  by_cases h1 : isJSONSpace c = true
  · simp [tokenScan, h1, flushLiteral]
  · by_cases h2 : (c == '[') = true
    · simp [tokenScan, h1, h2, flushLiteral]
    · by_cases h3 : (c == ']') = true
      · simp [tokenScan, h1, h2, h3, flushLiteral]
      · by_cases h4 : (c == ',') = true
        · simp [tokenScan, h1, h2, h3, h4, flushLiteral]
        · simp [isBreak, h1, h2, h3, h4] at h

/-- The line breaks of the indented text give no token. -/
lemma tokenScan_newline (depth : Nat) (rest : GoString) :
    tokenScan (newline depth ++ rest) [] = tokenScan rest [] := by
  have hspaces : ∀ n : Nat, tokenScan (List.replicate n ' ' ++ rest) [] = tokenScan rest [] := by
    intro n
    induction n with
    | zero => rfl
    | succ n ih =>
      rw [List.replicate_succ, List.cons_append]
      simp only [tokenScan, isJSONSpace, flushLiteral]
      simpa using ih
  unfold newline
  rw [List.cons_append]
  simp only [tokenScan, isJSONSpace, flushLiteral]
  simpa using hspaces depth

/-- A non-empty text without breaks scans to one literal. -/
lemma scans_literal (t : GoString) (hne : t ≠ []) (ht : ∀ c ∈ t, isBreak c = false) :
    Scans t [Token.literal t] := by
  intro c rest hc
  rw [tokenScan_plain t ht, List.append_nil, tokenScan_at_break c rest _ hc]
  cases hrev : t.reverse with
  | nil => exact absurd (List.reverse_eq_nil_iff.1 hrev) hne
  | cons d ds =>
    simp only [flushLiteral]
    rw [← hrev, List.reverse_reverse]
    rfl

lemma tokenScan_items (depth : Nat) (tail : GoString) :
    ∀ (items : List GoString) (toks : List (List Token)),
      List.Forall₂ Scans items toks →
      tokenScan ((items.flatMap fun y => ',' :: newline (depth + 1) ++ y) ++
          '\n' :: tail) [] =
        (toks.flatMap fun u => Token.comma :: u) ++ tokenScan ('\n' :: tail) [] := by
  intro items toks h
  induction h with
  | nil => rfl
  | @cons x t xs ts hx hxs ih =>
    simp only [List.flatMap_cons, List.cons_append, List.append_assoc]
    have hcomma : ∀ r : GoString, tokenScan (',' :: r) [] = Token.comma :: tokenScan r [] := by
      intro r
      simp [tokenScan, isJSONSpace, flushLiteral]
    rw [hcomma, tokenScan_newline]
    cases ‹List.Forall₂ Scans xs ts› with
    | nil =>
      simp only [List.flatMap_nil, List.nil_append]
      rw [hx '\n' tail (by decide)]
    | @cons y u ys us hy hys =>
      simp only [List.flatMap_cons, List.cons_append, List.append_assoc] at ih ⊢
      rw [hx ',' _ (by decide), ih]

/-- The indented array of items that scan to `toks` scans to the array of those
tokens, whatever follows. -/
lemma tokenScan_encodeArray (depth : Nat) (items : List GoString) (toks : List (List Token))
    (h : List.Forall₂ Scans items toks) (rest : GoString) :
    tokenScan (encodeArray depth items ++ rest) [] =
      arrayTokens toks ++ tokenScan rest [] := by
  cases h with
  | nil =>
    simp [encodeArray, arrayTokens, tokenScan, isJSONSpace, flushLiteral]
  | @cons x t xs ts hx hxs =>
    have hopen : ∀ r : GoString, tokenScan ('[' :: r) [] = Token.lbrack :: tokenScan r [] := by
      intro r
      simp [tokenScan, isJSONSpace, flushLiteral]
    have hclose : tokenScan (newline depth ++ ']' :: rest) [] =
        Token.rbrack :: tokenScan rest [] := by
      rw [tokenScan_newline]
      simp [tokenScan, isJSONSpace, flushLiteral]
    have hitems := tokenScan_items depth (List.replicate depth ' ' ++ ']' :: rest) xs ts hxs
    simp only [encodeArray, arrayTokens, List.cons_append, List.append_assoc, List.nil_append]
    rw [hopen, tokenScan_newline]
    have hnl : ∀ r : GoString, newline depth ++ r = '\n' :: (List.replicate depth ' ' ++ r) := by
      intro r; rfl
    rw [hnl]
    cases hxs with
    | nil =>
      simp only [List.flatMap_nil, List.nil_append]
      rw [hx '\n' _ (by decide), ← hnl, hclose]
    | @cons y u ys us hy hys =>
      simp only [List.flatMap_cons, List.cons_append, List.append_assoc] at hitems ⊢
      rw [hx ',' _ (by decide), hitems, ← hnl, hclose]

/-! ## The characters of a JSON number -/

lemma NumberRun.refl (s : GoString) : NumberRun s s :=
  ⟨[], rfl, by simp⟩

lemma NumberRun.trans {s r t : GoString} (h1 : NumberRun s r) (h2 : NumberRun r t) :
    NumberRun s t := by
  obtain ⟨p, rfl, hp⟩ := h1
  obtain ⟨q, rfl, hq⟩ := h2
  refine ⟨p ++ q, by simp, ?_⟩
  intro c hc
  rcases List.mem_append.1 hc with h | h
  · exact hp c h
  · exact hq c h

lemma NumberRun.cons {c : Char} {s r : GoString} (hc : isNumberChar c = true)
    (h : NumberRun s r) : NumberRun (c :: s) r := by
  obtain ⟨p, rfl, hp⟩ := h
  refine ⟨c :: p, rfl, ?_⟩
  intro d hd
  rcases List.mem_cons.1 hd with rfl | h
  · exact hc
  · exact hp d h

lemma isNumberChar_of_isDigit (c : Char) (h : c.isDigit = true) : isNumberChar c = true := by
  simp [isNumberChar, h]

lemma numberRun_dropWhile (s : GoString) : NumberRun s (s.dropWhile Char.isDigit) := by
  refine ⟨s.takeWhile Char.isDigit, (List.takeWhile_append_dropWhile _ s).symm, ?_⟩
  intro c hc
  exact isNumberChar_of_isDigit c (List.mem_takeWhile_imp hc)

lemma numberRun_dropDigits (s r : GoString) (h : dropDigits s = some r) : NumberRun s r := by
  cases s with
  | nil => simp [dropDigits] at h
  | cons c rest =>
    by_cases hc : c.isDigit = true
    · simp only [dropDigits, hc, if_true, Option.some.injEq] at h
      subst h
      exact NumberRun.cons (isNumberChar_of_isDigit c hc) (numberRun_dropWhile rest)
    · simp [dropDigits, hc] at h

lemma numberRun_dropInt (s r : GoString) (h : dropInt s = some r) :
    NumberRun s r ∧ s ≠ [] := by
  cases s with
  | nil => simp [dropInt] at h
  | cons c rest =>
    refine ⟨?_, by simp⟩
    by_cases h0 : c = '0'
    · subst h0
      simp only [dropInt, Option.some.injEq] at h
      subst h
      exact NumberRun.cons (by decide) (NumberRun.refl _)
    · have hd : dropInt (c :: rest) =
          if c.isDigit then some (rest.dropWhile Char.isDigit) else none := by
        unfold dropInt
        split
        · rename_i heq
          exact absurd (List.cons.inj heq).1 h0
        · rename_i heq
          obtain ⟨rfl, rfl⟩ := List.cons.inj heq
          rfl
        · rename_i heq
          exact absurd heq (by simp)
      rw [hd] at h
      by_cases hc : c.isDigit = true
      · simp only [hc, if_true, Option.some.injEq] at h
        subst h
        exact NumberRun.cons (isNumberChar_of_isDigit c hc) (numberRun_dropWhile rest)
      · simp [hc] at h

lemma numberRun_dropFrac (s r : GoString) (h : dropFrac s = some r) : NumberRun s r := by
  unfold dropFrac at h
  split at h
  · rename_i c rest
    by_cases hc : c.isDigit = true
    · simp only [hc, if_true, Option.some.injEq] at h
      subst h
      exact NumberRun.cons (by decide)
        (NumberRun.cons (isNumberChar_of_isDigit c hc) (numberRun_dropWhile rest))
    · simp [hc] at h
  · simp at h
  · simp only [Option.some.injEq] at h
    subst h
    exact NumberRun.refl _

lemma numberRun_dropExp (s r : GoString) (h : dropExp s = some r) : NumberRun s r := by
  cases s with
  | nil =>
    simp only [dropExp, Option.some.injEq] at h
    subst h
    exact NumberRun.refl _
  | cons c rest =>
    by_cases he : (c == 'e' || c == 'E') = true
    · have hc : isNumberChar c = true := by
        simp only [Bool.or_eq_true, beq_iff_eq] at he
        rcases he with rfl | rfl <;> decide
      simp only [dropExp, he, if_true] at h
      split at h
      · exact NumberRun.cons hc (NumberRun.cons (by decide) (numberRun_dropDigits _ _ h))
      · exact NumberRun.cons hc (NumberRun.cons (by decide) (numberRun_dropDigits _ _ h))
      · exact NumberRun.cons hc (numberRun_dropDigits _ _ h)
    · simp only [dropExp, he, Bool.false_eq_true, if_false, Option.some.injEq] at h
      subst h
      exact NumberRun.refl _

/-- A JSON number is a non-empty text of number characters. -/
lemma isJSONNumber_chars (s : GoString) (h : isJSONNumber s = true) :
    s ≠ [] ∧ ∀ c ∈ s, isNumberChar c = true := by
  have key : ∀ u : GoString,
      (match (dropInt u).bind dropFrac |>.bind dropExp with
        | some [] => true
        | _ => false) = true →
      u ≠ [] ∧ ∀ c ∈ u, isNumberChar c = true := by
    intro u hu
    cases h1 : dropInt u with
    | none => simp [h1] at hu
    | some r1 =>
      cases h2 : dropFrac r1 with
      | none => simp [h1, h2] at hu
      | some r2 =>
        cases h3 : dropExp r2 with
        | none => simp [h1, h2, h3] at hu
        | some r3 =>
          cases r3 with
          | cons _ _ => simp [h1, h2, h3] at hu
          | nil =>
            obtain ⟨hr1, hne⟩ := numberRun_dropInt u r1 h1
            obtain ⟨p, hp, hall⟩ :=
              (hr1.trans (numberRun_dropFrac r1 r2 h2)).trans (numberRun_dropExp r2 [] h3)
            refine ⟨hne, ?_⟩
            rw [List.append_nil] at hp
            rw [hp]
            exact hall
  cases s with
  | nil => exact absurd h (by decide)
  | cons c rest =>
    refine ⟨by simp, ?_⟩
    by_cases hm : c = '-'
    · subst hm
      have := key rest (by simpa [isJSONNumber] using h)
      intro d hd
      rcases List.mem_cons.1 hd with rfl | hd
      · decide
      · exact this.2 d hd
    · have hu : isJSONNumber (c :: rest) =
          (match (dropInt (c :: rest)).bind dropFrac |>.bind dropExp with
            | some [] => true
            | _ => false) := by
        unfold isJSONNumber
        split
        · rename_i heq
          exact absurd (List.cons.inj heq).1 hm
        · rfl
      rw [hu] at h
      exact (key (c :: rest) h).2

/-- A JSON number is not the literal `null`. -/
lemma isJSONNumber_ne_null (s : GoString) (h : isJSONNumber s = true) :
    s ≠ "null".toList := by
  rintro rfl
  exact absurd h (by decide)

/-- A JSON number scans to one literal. -/
lemma scans_number (s : GoString) (h : isJSONNumber s = true) : Scans s [Token.literal s] := by
  obtain ⟨hne, hall⟩ := isJSONNumber_chars s h
  exact scans_literal s hne (fun c hc => isBreak_false_of_isNumberChar c (hall c hc))

/-! ## Decoding what was encoded -/

lemma encodeFloats_of_formatsExactly (fmt : ℚ → GoString) (parse : GoString → Float64) :
    ∀ xs : List Float64, (∀ x ∈ xs, FormatsExactly fmt parse x) →
      ∃ texts, encodeFloats fmt xs = some texts ∧
        List.Forall₂ (fun t x => isJSONNumber t = true ∧ decodeFloat parse t = some x)
          texts xs := by
  intro xs
  induction xs with
  | nil => intro _; exact ⟨[], rfl, List.Forall₂.nil⟩
  | cons x xs ih =>
    intro h
    obtain ⟨q, rfl, hnum, hparse⟩ := h x (List.mem_cons_self x xs)
    obtain ⟨texts, henc, hall⟩ := ih (fun y hy => h y (List.mem_cons_of_mem _ hy))
    refine ⟨fmt q :: texts, ?_, List.Forall₂.cons ⟨hnum, ?_⟩ hall⟩
    · simp [encodeFloats, encodeFloat, henc]
    · have hnull : ¬ fmt q = "null".toList := isJSONNumber_ne_null _ hnum
      simp only [decodeFloat, if_neg hnull, hnum, if_true, hparse]

/-- A value that is not finite has no JSON text, and neither has a slice that
holds one. -/
lemma encodeFloats_of_not_finite (fmt : ℚ → GoString) :
    ∀ xs : List Float64, (∃ x ∈ xs, ∀ q : ℚ, x ≠ .finite q) → encodeFloats fmt xs = none := by
  intro xs
  induction xs with
  | nil => rintro ⟨x, hx, _⟩; simp at hx
  | cons y ys ih =>
    rintro ⟨x, hx, hnf⟩
    rcases List.mem_cons.1 hx with rfl | hmem
    · cases x with
      | finite q => exact absurd rfl (hnf q)
      | posInf => simp [encodeFloats, encodeFloat]
      | negInf => simp [encodeFloats, encodeFloat]
      | nan => simp [encodeFloats, encodeFloat]
    · have := ih ⟨x, hmem, hnf⟩
      cases h : encodeFloat fmt y <;> simp [encodeFloats, h, this]

lemma decodeElems_literals (parse : GoString → Float64) (rest : List Token) :
    ∀ (texts : List GoString) (xs : List Float64) (t : GoString) (x : Float64),
      decodeFloat parse t = some x →
      List.Forall₂ (fun t x => isJSONNumber t = true ∧ decodeFloat parse t = some x) texts xs →
      decodeElems parse (Token.literal t ::
          ((literalTokens texts).flatMap fun u => Token.comma :: u) ++ Token.rbrack :: rest) =
        some (x :: xs, rest) := by
  intro texts xs t x ht h
  induction h generalizing t x with
  | nil => simp [literalTokens, decodeElems, ht]
  | @cons u y us ys hu _ ih =>
    have := ih u y hu.2
    simp only [literalTokens, List.map_cons, List.flatMap_cons, List.cons_append,
      List.nil_append] at this ⊢
    simp only [decodeElems, ht, this]

/-- The tokens of an encoded slice of numbers decode to the slice. -/
lemma decodeSlice_arrayTokens (parse : GoString → Float64) (texts : List GoString)
    (xs : List Float64)
    (h : List.Forall₂ (fun t x => isJSONNumber t = true ∧ decodeFloat parse t = some x)
      texts xs) (rest : List Token) :
    decodeSlice parse (arrayTokens (literalTokens texts) ++ rest) = some (xs, rest) := by
  cases h with
  | nil => simp [literalTokens, arrayTokens, decodeSlice]
  | @cons t x ts ys ht hts =>
    have := decodeElems_literals parse rest ts ys t x ht.2 hts
    simp only [literalTokens, List.map_cons, arrayTokens, List.cons_append, List.nil_append,
      List.append_assoc] at this ⊢
    simp only [decodeSlice, this]

lemma scans_literals_of_numbers (parse : GoString → Float64) (texts : List GoString)
    (xs : List Float64)
    (h : List.Forall₂ (fun t x => isJSONNumber t = true ∧ decodeFloat parse t = some x)
      texts xs) :
    List.Forall₂ Scans texts (literalTokens texts) := by
  induction h with
  | nil => exact List.Forall₂.nil
  | cons ht _ ih => exact List.Forall₂.cons (scans_number _ ht.1) ih

/-- The round trip of a non-nil slice of numbers at any nesting depth, whatever
text follows it. -/
lemma marshalIndentFloats_scans (fmt : ℚ → GoString) (parse : GoString → Float64)
    (depth : Nat) (xs : List Float64) (h : ∀ x ∈ xs, FormatsExactly fmt parse x) :
    ∃ (text : GoString) (toks : List Token),
      marshalIndentFloats fmt depth false xs = some text ∧
      (∀ rest, tokenScan (text ++ rest) [] = toks ++ tokenScan rest []) ∧
      (∀ more, decodeSlice parse (toks ++ more) = some (xs, more)) ∧
      toks ≠ [] := by
  obtain ⟨texts, henc, hall⟩ := encodeFloats_of_formatsExactly fmt parse xs h
  refine ⟨encodeArray depth texts, arrayTokens (literalTokens texts), ?_, ?_, ?_, ?_⟩
  · simp [marshalIndentFloats, henc]
  · exact tokenScan_encodeArray depth texts _ (scans_literals_of_numbers parse texts xs hall)
  · exact decodeSlice_arrayTokens parse texts xs hall
  · cases hl : literalTokens texts <;> simp [arrayTokens]

/-- The sink content of `RecordHostCPUUsage` decodes to the Series. -/
lemma unmarshalFloats_jsonCPU (fmt : ℚ → GoString) (parse : GoString → Float64)
    (xs : List Float64) (h : ∀ x ∈ xs, FormatsExactly fmt parse x) :
    unmarshalFloats parse (jsonCPU fmt xs) = some xs := by
  obtain ⟨text, toks, henc, hscan, hdec, _⟩ := marshalIndentFloats_scans fmt parse 0 xs h
  have h1 := hscan []
  have h2 := hdec []
  simp only [List.append_nil] at h1 h2
  have h3 : tokenScan [] [] = [] := rfl
  rw [h3, List.append_nil] at h1
  simp only [unmarshalFloats, jsonCPU, henc, Option.getD_some, h1, h2]

/-- A Series of `RecordHostCPUUsage` that holds a value that is not finite is
not encoded: the error of `json.MarshalIndent` is dropped, the bytes written
are empty, and they do not decode. -/
lemma jsonCPU_of_not_finite (fmt : ℚ → GoString) (parse : GoString → Float64)
    (xs : List Float64) (h : ∃ x ∈ xs, ∀ q : ℚ, x ≠ .finite q) :
    jsonCPU fmt xs = [] ∧ unmarshalFloats parse (jsonCPU fmt xs) = none := by
  have hbytes : jsonCPU fmt xs = [] := by
    simp [jsonCPU, marshalIndentFloats, encodeFloats_of_not_finite fmt xs h]
  rw [hbytes]
  exact ⟨rfl, rfl⟩

lemma encodeRows_of_formatsExactly (fmt : ℚ → GoString) (parse : GoString → Float64) :
    ∀ rows : List (List Float64), (∀ row ∈ rows, ∀ x ∈ row, FormatsExactly fmt parse x) →
      ∃ (texts : List GoString) (tokss : List (List Token)),
        encodeRows fmt rows = some texts ∧
        List.Forall₂ ScansAlways texts tokss ∧
        List.Forall₂ (DecodesTo parse) tokss rows := by
  intro rows
  induction rows with
  | nil => intro _; exact ⟨[], [], rfl, List.Forall₂.nil, List.Forall₂.nil⟩
  | cons row rows ih =>
    intro h
    obtain ⟨text, toks, henc, hscan, hdec, hne⟩ :=
      marshalIndentFloats_scans fmt parse 1 row (h row (List.mem_cons_self row rows))
    obtain ⟨texts, tokss, hencs, hscans, hdecs⟩ :=
      ih (fun r hr => h r (List.mem_cons_of_mem _ hr))
    refine ⟨text :: texts, toks :: tokss, ?_, List.Forall₂.cons hscan hscans,
      List.Forall₂.cons ⟨hne, hdec⟩ hdecs⟩
    simp [encodeRows, henc, hencs]

lemma scans_of_scansAlways (texts : List GoString) (tokss : List (List Token))
    (h : List.Forall₂ ScansAlways texts tokss) : List.Forall₂ Scans texts tokss := by
  induction h with
  | nil => exact List.Forall₂.nil
  | cons hx _ ih => exact List.Forall₂.cons (fun c rest _ => hx (c :: rest)) ih

lemma decodeRowsFuel_rows (parse : GoString → Float64) (rest : List Token) :
    ∀ (tokss : List (List Token)) (rows : List (List Float64)),
      List.Forall₂ (DecodesTo parse) tokss rows →
      ∀ (fuel : Nat) (toks : List Token) (row : List Float64),
        rows.length + 1 ≤ fuel → DecodesTo parse toks row →
        decodeRowsFuel parse fuel
            (toks ++ (tokss.flatMap fun u => Token.comma :: u) ++ Token.rbrack :: rest) =
          some (row :: rows, rest) := by
  intro tokss rows h
  induction h with
  | nil =>
    intro fuel toks row hfuel hrow
    obtain ⟨f, rfl⟩ : ∃ f, fuel = f + 1 := ⟨fuel - 1, by simp at hfuel; omega⟩
    simp only [List.flatMap_nil, List.append_nil, decodeRowsFuel, hrow.2]
  | @cons u r us rs hu _ ih =>
    intro fuel toks row hfuel hrow
    obtain ⟨f, rfl⟩ : ∃ f, fuel = f + 1 := ⟨fuel - 1, by simp at hfuel; omega⟩
    have hnext := ih f u r (by simp at hfuel ⊢; omega) hu
    simp only [List.flatMap_cons, List.cons_append, List.append_assoc] at hnext ⊢
    simp only [decodeRowsFuel, hrow.2, hnext]

lemma length_flatMap_comma (tokss : List (List Token)) :
    tokss.length ≤ (tokss.flatMap fun u => Token.comma :: u).length := by
  induction tokss with
  | nil => simp
  | cons t ts ih =>
    simp only [List.flatMap_cons, List.length_append, List.length_cons]
    omega

lemma unmarshalRows_of_tokens (parse : GoString → Float64) (data : GoString)
    (rest : List Token) (h : tokenScan data [] = Token.lbrack :: rest)
    (hne : rest ≠ [Token.rbrack]) :
    unmarshalRows parse data =
      match decodeRowsFuel parse rest.length rest with
      | some (rows, []) => some rows
      | _ => none := by
  unfold unmarshalRows
  cases rest with
  | nil => simp only [h]
  | cons t ts =>
    cases ts with
    | nil =>
      cases t with
      | rbrack => exact absurd rfl hne
      | lbrack => simp only [h]
      | comma => simp only [h]
      | literal text => simp only [h]
    | cons u us => simp only [h]

/-- The sink content of `RecordTraffic` decodes to the Series. -/
lemma unmarshalRows_jsonRxTx (fmt : ℚ → GoString) (parse : GoString → Float64)
    (rows : List (List Float64)) (h : ∀ row ∈ rows, ∀ x ∈ row, FormatsExactly fmt parse x) :
    unmarshalRows parse (jsonRxTx fmt rows) = some rows := by
  obtain ⟨texts, tokss, henc, hscans, hdecs⟩ := encodeRows_of_formatsExactly fmt parse rows h
  cases hdecs with
  | nil =>
    rfl
  | @cons toks row tokss' rows' hrow hrows =>
    cases hscans with
    | @cons text _ texts' _ htext htexts =>
      have hscan := tokenScan_encodeArray 0 (text :: texts') (toks :: tokss')
        (scans_of_scansAlways _ _ (List.Forall₂.cons htext htexts)) []
      have h3 : tokenScan [] [] = [] := rfl
      simp only [List.append_nil, h3, arrayTokens, List.cons_append] at hscan
      have hjson : jsonRxTx fmt (row :: rows') = encodeArray 0 (text :: texts') := by
        simp [jsonRxTx, marshalIndentRows, henc]
      have hne : toks ++ (tokss'.flatMap fun u => Token.comma :: u) ++ [Token.rbrack] ≠
          [Token.rbrack] := by
        intro heq
        have hlen := congrArg List.length heq
        have : toks.length ≠ 0 := fun h0 => hrow.1 (List.length_eq_zero.1 h0)
        simp only [List.length_append, List.length_cons, List.length_nil] at hlen
        omega
      rw [hjson, unmarshalRows_of_tokens parse _ _ hscan hne]
      have hfuel : rows'.length + 1 ≤
          (toks ++ (tokss'.flatMap fun u => Token.comma :: u) ++ [Token.rbrack]).length := by
        have h1 := length_flatMap_comma tokss'
        have h2 := hrows.length_eq
        simp only [List.length_append, List.length_cons, List.length_nil]
        omega
      rw [decodeRowsFuel_rows parse [] tokss' rows' hrows _ toks row hfuel hrow]

/-- The rows of the Series of `RecordTraffic` are pairs. -/
lemma rows_are_pairs (pf : GoString → Float64) (probes : Nat → CmdResult) (reps : Nat)
    (series : List (List Float64))
    (h : series.map (Except.ok : List Float64 → Except Panic (List Float64)) =
      (List.range reps).map (fun k => trafficSample pf (probes k).out)) :
    ∀ row ∈ series, ∃ rx tx, row = [rx, tx] := by
  intro row hrow
  have hmem : (Except.ok row : Except Panic (List Float64)) ∈
      series.map (Except.ok : List Float64 → Except Panic (List Float64)) :=
    List.mem_map_of_mem _ hrow
  rw [h] at hmem
  obtain ⟨k, _, hk⟩ := List.mem_map.1 hmem
  obtain ⟨rx, tx, hsample, _, _⟩ := trafficSample_ok pf (probes k).out
  exact ⟨rx, tx, Except.ok.inj (hk.symm.trans hsample)⟩

/-- The run of the scenario of the specification. -/
lemma scenario_run :
    RecordHostCPUUsage parseDecimal scenarioProbes 3 0 writableSink =
      .ok { series := [.finite 12.5, .finite (-1), .finite (-2)],
            success := false,
            trace := [.query 0, .sleep 0, .query 1, .sleep 0, .query 2, .sleep 0,
                      .create, .write, .sendBool false] } := by
  have hrun : ∀ pf : GoString → Float64,
      RecordHostCPUUsage pf scenarioProbes 3 0 writableSink =
        .ok { series := [pf "12.5".toList, .finite (-1), .finite (-2)],
              success := false,
              trace := [.query 0, .sleep 0, .query 1, .sleep 0, .query 2, .sleep 0,
                        .create, .write, .sendBool false] } := fun _ => rfl
  have hval : parseDecimal "12.5".toList = .finite 12.5 := by
    show Float64.finite (mkRat (125 : Nat) 10) = _
    rw [Rat.mkRat_eq_div]
    norm_num
  rw [hrun, hval]

/-- The values of the scenario are written and read back exactly by the
concrete formatting and parsing. -/
lemma scenario_formatsExactly :
    ∀ x ∈ [Float64.finite 12.5, Float64.finite (-1), Float64.finite (-2)],
      FormatsExactly scenarioFormat parseNumber x := by
  have h1 : scenarioFormat 12.5 = "12.5".toList := by norm_num [scenarioFormat]
  have h2 : scenarioFormat (-1) = "-1".toList := by norm_num [scenarioFormat]
  have h3 : scenarioFormat (-2) = "-2".toList := by norm_num [scenarioFormat]
  intro x hx
  simp only [List.mem_cons, List.mem_singleton, List.not_mem_nil, or_false] at hx
  rcases hx with rfl | rfl | rfl
  · refine ⟨12.5, rfl, by rw [h1]; rfl, ?_⟩
    rw [h1]
    show Float64.finite (mkRat (1 * ((125 : Nat) : Int)) 10) = _
    rw [Rat.mkRat_eq_div]
    norm_num
  · refine ⟨-1, rfl, by rw [h2]; rfl, ?_⟩
    rw [h2]
    show Float64.finite (mkRat (-1 * ((1 : Nat) : Int)) 1) = _
    rw [Rat.mkRat_eq_div]
    norm_num
  · refine ⟨-2, rfl, by rw [h3]; rfl, ?_⟩
    rw [h3]
    show Float64.finite (mkRat (-1 * ((2 : Nat) : Int)) 1) = _
    rw [Rat.mkRat_eq_div]
    norm_num

/-- The run of `RecordTraffic` whose only query failed after printing a TX
line. -/
lemma failed_query_run :
    RecordTraffic parseDecimal (fun _ => failedWithOutput) 1 0 writableSink =
      .ok { series := [[.finite 0, .finite 1.5]],
            success := false,
            trace := [.query 0, .sleep 0, .create, .write, .sendBool false] } := by
  have hrun : ∀ pf : GoString → Float64,
      RecordTraffic pf (fun _ => failedWithOutput) 1 0 writableSink =
        .ok { series := [[.finite 0, pf "1.5".toList]],
              success := false,
              trace := [.query 0, .sleep 0, .create, .write, .sendBool false] } :=
    fun _ => rfl
  have hval : parseDecimal "1.5".toList = .finite 1.5 := by
    show Float64.finite (mkRat (15 : Nat) 10) = _
    rw [Rat.mkRat_eq_div]
    norm_num
  rw [hrun, hval]

/-- The values 0 and 1.5 are written and read back exactly by the concrete
formatting and parsing. -/
lemma pair_formatsExactly :
    ∀ row ∈ [[Float64.finite 0, Float64.finite 1.5]], ∀ x ∈ row,
      FormatsExactly scenarioFormat parseNumber x := by
  have h1 : scenarioFormat 0 = "0".toList := by norm_num [scenarioFormat]
  have h2 : scenarioFormat 1.5 = "1.5".toList := by norm_num [scenarioFormat]
  intro row hrow x hx
  obtain rfl : row = [Float64.finite 0, Float64.finite 1.5] := by simpa using hrow
  simp only [List.mem_cons, List.mem_singleton, List.not_mem_nil, or_false] at hx
  rcases hx with rfl | rfl
  · refine ⟨0, rfl, by rw [h1]; rfl, ?_⟩
    rw [h1]
    show Float64.finite (mkRat (1 * ((0 : Nat) : Int)) 1) = _
    rw [Rat.mkRat_eq_div]
    norm_num
  · refine ⟨1.5, rfl, by rw [h2]; rfl, ?_⟩
    rw [h2]
    show Float64.finite (mkRat (1 * ((15 : Nat) : Int)) 10) = _
    rw [Rat.mkRat_eq_div]
    norm_num

/-! ## The claims about the collectors -/

lemma filter_isSend_loop (nap : Int) (l : List Nat) :
    (l.flatMap (fun k => [Event.query k, Event.sleep (napDuration nap)])).filter
      Event.isSend = [] := by
  induction l with
  | nil => rfl
  | cons a l ih =>
    simp only [List.flatMap_cons, List.filter_append, ih]
    rfl

/-- What a finished run of either collector sent and when it is `true`. -/
lemma writeAndReport_outcome {σ : Type} (series : σ) (probes : Nat → CmdResult) (reps : Nat)
    (nap : Int) (sink : Sink) :
    let fin := writeAndReport series ((List.range reps).all (fun k => !(probes k).err))
      ((List.range reps).flatMap (fun k => [Event.query k, Event.sleep (napDuration nap)]))
      sink
    fin.trace.filter Event.isSend = [Event.sendBool fin.success] ∧
    (fin.success = true ↔
      (∀ i, i < reps → (probes i).err = false) ∧
        sink.createErr = false ∧ sink.writeErr = false) := by
  intro fin
  constructor
  · show (writeAndReport _ _ _ _).trace.filter Event.isSend = _
    rw [writeAndReport_trace, List.filter_append, filter_isSend_loop]
    rfl
  · show (writeAndReport _ _ _ _).success = true ↔ _
    rw [writeAndReport_success]
    simp [List.all_eq_true, and_assoc]

/-- C1, as the code has it: on probe results whose samples never panic, each
of `RecordHostCPUUsage` and `RecordTraffic` finishes and sends one value, and
that value is `true` (success) exactly when no query returned an error and
creating and writing the sink file both succeeded. A target-absent sample does
not enter the outcome; a failed query does. -/
theorem outcome_true_iff_no_query_error_and_sink_ok (pf : GoString → Float64)
    (probes : Nat → CmdResult) (reps : Nat) (nap : Int) (sink : Sink)
    (hok : ∀ i, i < reps → cpuSampleOk pf (probes i) = true) :
    (∃ fin, RecordHostCPUUsage pf probes reps nap sink = .ok fin ∧
      fin.trace.filter Event.isSend = [Event.sendBool fin.success] ∧
      (fin.success = true ↔
        (∀ i, i < reps → (probes i).err = false) ∧
          sink.createErr = false ∧ sink.writeErr = false)) ∧
    (∃ fin, RecordTraffic pf probes reps nap sink = .ok fin ∧
      fin.trace.filter Event.isSend = [Event.sendBool fin.success] ∧
      (fin.success = true ↔
        (∀ i, i < reps → (probes i).err = false) ∧
          sink.createErr = false ∧ sink.writeErr = false)) := by
  obtain ⟨s1, _, h1⟩ := RecordHostCPUUsage_ok pf probes reps nap sink hok
  obtain ⟨s2, _, h2⟩ := RecordTraffic_ok pf probes reps nap sink
  exact ⟨⟨_, h1, writeAndReport_outcome s1 probes reps nap sink⟩,
    ⟨_, h2, writeAndReport_outcome s2 probes reps nap sink⟩⟩

/-- C10, as the code has it: the events of `RecordTraffic`, on any probe
results, and those of `RecordHostCPUUsage`, on probe results whose samples never
panic, are a query followed by a sleep for each of the iterations
`0, ..., reps-1`, the last one included, then create, write and the send: the
collector sleeps `reps` times. -/
theorem sleeps_after_every_query (pf : GoString → Float64)
    (probes : Nat → CmdResult) (reps : Nat) (nap : Int) (sink : Sink) :
    (∃ fin, RecordTraffic pf probes reps nap sink = .ok fin ∧
      fin.trace = (List.range reps).flatMap
          (fun k => [Event.query k, Event.sleep (napDuration nap)]) ++
        [Event.create, Event.write, Event.sendBool fin.success] ∧
      fin.trace.countP Event.isSleep = reps) ∧
    ((∀ i, i < reps → cpuSampleOk pf (probes i) = true) →
      ∃ fin, RecordHostCPUUsage pf probes reps nap sink = .ok fin ∧
        fin.trace = (List.range reps).flatMap
            (fun k => [Event.query k, Event.sleep (napDuration nap)]) ++
          [Event.create, Event.write, Event.sendBool fin.success] ∧
        fin.trace.countP Event.isSleep = reps) := by
  have hcount : ∀ b : Bool, ((List.range reps).flatMap
      (fun k => [Event.query k, Event.sleep (napDuration nap)]) ++
      [Event.create, Event.write, Event.sendBool b]).countP Event.isSleep = reps := by
    intro b
    rw [List.countP_append, countP_isSleep_loop, List.length_range]
    rfl
  constructor
  · obtain ⟨s2, _, h2⟩ := RecordTraffic_ok pf probes reps nap sink
    refine ⟨_, h2, writeAndReport_trace _ _ _ _, ?_⟩
    rw [writeAndReport_trace]
    exact hcount _
  · intro hok
    obtain ⟨s1, _, h1⟩ := RecordHostCPUUsage_ok pf probes reps nap sink hok
    refine ⟨_, h1, writeAndReport_trace _ _ _ _, ?_⟩
    rw [writeAndReport_trace]
    exact hcount _

/-- What `RecordTraffic` does at an iteration whose query returned an error:
the bytes that came with the error go through both patterns all the same, and
the Sample is `[rx, tx]` with each entry parsed from the group of its pattern
when the output matches it and 0 when it does not. The run reports failure, and
the loop goes on: the Series has `reps` elements and every iteration made its
query. -/
lemma RecordTraffic_failed_query (pf : GoString → Float64)
    (probes : Nat → CmdResult) (reps : Nat) (nap : Int) (sink : Sink) (i : Nat)
    (hi : i < reps) (herr : (probes i).err = true) :
    ∃ fin rx tx, RecordTraffic pf probes reps nap sink = .ok fin ∧
      fin.series.length = reps ∧
      fin.series.get? i = some [rx, tx] ∧
      (reRX (probes i).out = none → rx = .finite 0) ∧
      (∀ whole cap, reRX (probes i).out = some [whole, cap] → rx = pf cap) ∧
      (reTX (probes i).out = none → tx = .finite 0) ∧
      (∀ whole cap, reTX (probes i).out = some [whole, cap] → tx = pf cap) ∧
      fin.success = false ∧
      (∀ j, j < reps → Event.query j ∈ fin.trace) := by
  obtain ⟨series, hseries, hrun⟩ := RecordTraffic_ok pf probes reps nap sink
  obtain ⟨hlen, v, hget, hv⟩ := element_of_map_ok series
    (fun k => trafficSample pf (probes k).out) reps i hseries hi
  obtain ⟨rx, tx, hsample, hrx, htx⟩ := trafficSample_ok pf (probes i).out
  have hveq : v = [rx, tx] := by
    have := hv.symm.trans hsample
    exact Except.ok.inj this
  subst hveq
  refine ⟨_, rx, tx, hrun, ?_, ?_, ?_, ?_, ?_, ?_, ?_, ?_⟩
  · rw [writeAndReport_series]; exact hlen
  · rw [writeAndReport_series]; exact hget
  · intro h
    rw [h] at hrx
    exact (Except.ok.inj hrx).symm
  · intro whole cap h
    rw [h] at hrx
    exact (Except.ok.inj hrx).symm
  · intro h
    rw [h] at htx
    exact (Except.ok.inj htx).symm
  · intro whole cap h
    rw [h] at htx
    exact (Except.ok.inj htx).symm
  · rw [writeAndReport_success]
    have : (List.range reps).all (fun k => !(probes k).err) = false := by
      rw [List.all_eq_false]
      exact ⟨i, List.mem_range.2 hi, by simp [herr]⟩
    simp [this]
  · intro j hj
    rw [writeAndReport_trace]
    apply List.mem_append_left
    rw [List.mem_flatMap]
    exact ⟨j, List.mem_range.2 hj, by simp⟩

/-! ## Concrete runs -/

/-- C1, the scenario as the claim gives it: `reps = 3`, `nap = 0`, the probe
results success (12.5), query failure, target absent, a sink that is created
and written. No sample panics and the Series is `[12.5, -1, -2]`, but the value
sent is `false`: the failed query set `success` to `false`. -/
theorem scenario_outcome_is_failure :
    (∀ i, i < 3 → cpuSampleOk parseDecimal (scenarioProbes i) = true) ∧
    RecordHostCPUUsage parseDecimal scenarioProbes 3 0 writableSink =
      .ok { series := [.finite 12.5, .finite (-1), .finite (-2)],
            success := false,
            trace := [.query 0, .sleep 0, .query 1, .sleep 0, .query 2, .sleep 0,
                      .create, .write, .sendBool false] } := by
  exact ⟨by decide, scenario_run⟩

/-- C1, witness: the outcome theorem at the scenario of the specification. -/
theorem outcome_true_iff_no_query_error_and_sink_ok_witness :
    (∀ i, i < 3 → cpuSampleOk parseDecimal (scenarioProbes i) = true) ∧
    ∃ fin, RecordHostCPUUsage parseDecimal scenarioProbes 3 0 writableSink = .ok fin ∧
      fin.trace.filter Event.isSend = [Event.sendBool fin.success] ∧
      (fin.success = true ↔
        (∀ i, i < 3 → (scenarioProbes i).err = false) ∧
          writableSink.createErr = false ∧ writableSink.writeErr = false) :=
  ⟨by decide,
   (outcome_true_iff_no_query_error_and_sink_ok parseDecimal scenarioProbes 3 0 writableSink
      (by decide)).1⟩

/-- C7, at a query of `RecordTraffic` that returned an error together with the
output `TX packets 50 bytes 1572864 (1.5 MiB)`: the output is parsed although
the query failed, and the Sample appended is `[0, 1.5]`, not `[0, 0]`. -/
theorem failed_query_with_output_is_not_zero_pair :
    failedWithOutput.err = true ∧
    RecordTraffic parseDecimal (fun _ => failedWithOutput) 1 0 writableSink =
      .ok { series := [[.finite 0, .finite 1.5]],
            success := false,
            trace := [.query 0, .sleep 0, .create, .write, .sendBool false] } ∧
    [Float64.finite 0, Float64.finite 1.5] ≠ [.finite 0, .finite 0] := by
  refine ⟨rfl, failed_query_run, ?_⟩
  norm_num

/-- C10, at `reps = 1`: each collector sleeps once, after its only query, where
the claim has `reps - 1 = 0` sleeps. -/
theorem single_iteration_sleeps_once :
    runTrace (RecordHostCPUUsage parseDecimal scenarioProbes 1 0 writableSink) =
      [.query 0, .sleep 0, .create, .write, .sendBool true] ∧
    runTrace (RecordTraffic parseDecimal scenarioProbes 1 0 writableSink) =
      [.query 0, .sleep 0, .create, .write, .sendBool true] ∧
    (runTrace (RecordTraffic parseDecimal scenarioProbes 1 0 writableSink)).countP
      Event.isSleep ≠ 1 - 1 :=
  ⟨rfl, rfl, by decide⟩

/-- C10, witness: the sleep theorem at the scenario of the specification for
`RecordHostCPUUsage`, and for `RecordTraffic` at three `ifconfig` outputs that
are just "qemu", on which the CPU extraction would panic. -/
theorem sleeps_after_every_query_witness :
    (∀ i, i < 3 → cpuSampleOk parseDecimal (scenarioProbes i) = true) ∧
    (∃ fin, RecordHostCPUUsage parseDecimal scenarioProbes 3 0 writableSink = .ok fin ∧
      fin.trace = (List.range 3).flatMap
          (fun k => [Event.query k, Event.sleep (napDuration 0)]) ++
        [Event.create, Event.write, Event.sendBool fin.success] ∧
      fin.trace.countP Event.isSleep = 3) ∧
    cpuSampleOk parseDecimal shortOutput = false ∧
    (∃ fin, RecordTraffic parseDecimal (fun _ => shortOutput) 3 0 writableSink = .ok fin ∧
      fin.trace = (List.range 3).flatMap
          (fun k => [Event.query k, Event.sleep (napDuration 0)]) ++
        [Event.create, Event.write, Event.sendBool fin.success] ∧
      fin.trace.countP Event.isSleep = 3) :=
  ⟨by decide,
   (sleeps_after_every_query parseDecimal scenarioProbes 3 0 writableSink).2 (by decide),
   rfl,
   (sleeps_after_every_query parseDecimal (fun _ => shortOutput) 3 0 writableSink).1⟩

/-! ## The sink content -/

/-- C9: decoding the bytes handed to `ioutil.WriteFile` gives back the Series.
With `formatFloat` the number formatting of `json.MarshalIndent` and
`parseFloat` the number parsing of the decoder: for every Series that
`RecordHostCPUUsage` or `RecordTraffic` produces, if every value is finite and
is written as a JSON number that parses back to it, then `json.Unmarshal` of the
indented JSON yields the same sequence, same length, values and order, and each
element of a traffic Series is a pair `[rx, tx]`. With `reps = 0` the bytes are
`[]` for `RecordHostCPUUsage` and `null` for `RecordTraffic`, which both decode
to the empty sequence. -/
theorem sink_content_round_trips (formatFloat : ℚ → GoString)
    (parseFloat : GoString → Float64) (pf : GoString → Float64)
    (probes : Nat → CmdResult) (reps : Nat) (nap : Int) (sink : Sink) :
    (∀ fin, RecordHostCPUUsage pf probes reps nap sink = .ok fin →
      (∀ x ∈ fin.series, FormatsExactly formatFloat parseFloat x) →
      unmarshalFloats parseFloat (jsonCPU formatFloat fin.series) = some fin.series) ∧
    (∀ fin, RecordTraffic pf probes reps nap sink = .ok fin →
      (∀ row ∈ fin.series, ∀ x ∈ row, FormatsExactly formatFloat parseFloat x) →
      unmarshalRows parseFloat (jsonRxTx formatFloat fin.series) = some fin.series ∧
      ∀ row ∈ fin.series, ∃ rx tx, row = [rx, tx]) ∧
    (∀ fin, RecordHostCPUUsage pf probes 0 nap sink = .ok fin →
      fin.series = [] ∧ jsonCPU formatFloat fin.series = "[]".toList ∧
      unmarshalFloats parseFloat "[]".toList = some []) ∧
    (∀ fin, RecordTraffic pf probes 0 nap sink = .ok fin →
      fin.series = [] ∧ jsonRxTx formatFloat fin.series = "null".toList ∧
      unmarshalRows parseFloat "null".toList = some []) := by
  refine ⟨?_, ?_, ?_, ?_⟩
  · intro fin _ hlaw
    exact unmarshalFloats_jsonCPU formatFloat parseFloat fin.series hlaw
  · intro fin hrun hlaw
    refine ⟨unmarshalRows_jsonRxTx formatFloat parseFloat fin.series hlaw, ?_⟩
    obtain ⟨series, hseries, hok⟩ := RecordTraffic_ok pf probes reps nap sink
    rw [hok] at hrun
    have hfin := Except.ok.inj hrun
    rw [← hfin, writeAndReport_series]
    exact rows_are_pairs pf probes reps series hseries
  · intro fin hrun
    have hfin : writeAndReport ([] : List Float64) true [] sink = fin := Except.ok.inj hrun
    rw [← hfin]
    exact ⟨rfl, rfl, rfl⟩
  · intro fin hrun
    have hfin : writeAndReport ([] : List (List Float64)) true [] sink = fin :=
      Except.ok.inj hrun
    rw [← hfin]
    exact ⟨rfl, rfl, rfl⟩

/-- C9, witness: the round trip at the scenario of the specification, whose
Series `[12.5, -1, -2]` is written as a three-line indented array and decodes to
itself, and at the traffic Series `[[0, 1.5]]`, written as an array of one
indented pair. -/
theorem sink_content_round_trips_witness :
    (∀ x ∈ [Float64.finite 12.5, Float64.finite (-1), Float64.finite (-2)],
      FormatsExactly scenarioFormat parseNumber x) ∧
    jsonCPU scenarioFormat [.finite 12.5, .finite (-1), .finite (-2)] =
      "[\n 12.5,\n -1,\n -2\n]".toList ∧
    unmarshalFloats parseNumber
        (jsonCPU scenarioFormat [.finite 12.5, .finite (-1), .finite (-2)]) =
      some [.finite 12.5, .finite (-1), .finite (-2)] ∧
    jsonRxTx scenarioFormat [[.finite 0, .finite 1.5]] =
      "[\n [\n  0,\n  1.5\n ]\n]".toList ∧
    unmarshalRows parseNumber (jsonRxTx scenarioFormat [[.finite 0, .finite 1.5]]) =
      some [[.finite 0, .finite 1.5]] :=
  ⟨scenario_formatsExactly,
   by norm_num [jsonCPU, marshalIndentFloats, encodeFloats, encodeFloat, scenarioFormat,
       encodeArray, newline],
   (sink_content_round_trips scenarioFormat parseNumber parseDecimal scenarioProbes 3 0
      writableSink).1 _ scenario_run scenario_formatsExactly,
   by norm_num [jsonRxTx, marshalIndentRows, encodeRows, marshalIndentFloats, encodeFloats,
       encodeFloat, scenarioFormat, encodeArray, newline, List.replicate],
   ((sink_content_round_trips scenarioFormat parseNumber parseDecimal
      (fun _ => failedWithOutput) 1 0 writableSink).2.1 _ failed_query_run
      pair_formatsExactly).1⟩

/-! ## Runs that panic -/

/-- C8, at a `top` output that is just "qemu", returned without error: the
output contains "qemu", `strings.Split(out, "qemu")[1]` is in range and is the
empty string, it has no fields, and `strings.Fields(outTail)[6]` panics: the
iteration yields no Sample. -/
theorem short_output_panics_at_fields_index (pf : GoString → Float64) :
    shortOutput.err = false ∧
    Contains shortOutput.out "qemu".toList = true ∧
    index (Split shortOutput.out "qemu".toList) 1 = .ok [] ∧
    Fields [] = [] ∧
    cpuSample pf shortOutput = .error (.indexOutOfRange 6 0) :=
  ⟨rfl, rfl, rfl, rfl, rfl⟩

/-- C4: `RecordTraffic` and `GetCRIStatsFromVM` send exactly one value on every
input, and so does `RecordHostCPUUsage` when no sample panics; when a sample
panics `RecordHostCPUUsage` sends none, as in the run with `reps = 1` whose
`top` output is just "qemu". -/
theorem sends_per_invocation (pf : GoString → Float64) (probes : Nat → CmdResult)
    (reps : Nat) (nap : Int) (sink : Sink) (createErr : Bool) (writeErr : GoError) :
    (runTrace (RecordTraffic pf probes reps nap sink)).countP Event.isSend = 1 ∧
    (GetCRIStatsFromVM createErr writeErr).countP Event.isSend = 1 ∧
    ((runTrace (RecordHostCPUUsage pf probes reps nap sink)).countP Event.isSend =
      if ∀ i, i < reps → cpuSampleOk pf (probes i) = true then 1 else 0) ∧
    (runTrace (RecordHostCPUUsage pf (fun _ => shortOutput) 1 nap sink)).countP
      Event.isSend = 0 := by
  have hone : ∀ b : Bool, ((List.range reps).flatMap
      (fun k => [Event.query k, Event.sleep (napDuration nap)]) ++
      [Event.create, Event.write, Event.sendBool b]).countP Event.isSend = 1 := by
    intro b
    rw [List.countP_append, countP_isSend_loop]
    rfl
  refine ⟨?_, rfl, ?_, rfl⟩
  · obtain ⟨s, _, h⟩ := RecordTraffic_ok pf probes reps nap sink
    rw [h]
    show (writeAndReport _ _ _ _).trace.countP Event.isSend = 1
    rw [writeAndReport_trace]
    exact hone _
  · by_cases hall : ∀ i, i < reps → cpuSampleOk pf (probes i) = true
    · obtain ⟨s, _, h⟩ := RecordHostCPUUsage_ok pf probes reps nap sink hall
      rw [if_pos hall, h]
      show (writeAndReport _ _ _ _).trace.countP Event.isSend = 1
      rw [writeAndReport_trace]
      exact hone _
    · rw [if_neg hall]
      push_neg at hall
      obtain ⟨k, hk, hbad⟩ := hall
      obtain ⟨c, hc, hcount⟩ := cpuLoop_error pf probes nap reps 0
        { cpuData := List.replicate reps (.finite 0), success := true, trace := [] }
        ⟨k, Nat.zero_le k, by omega, by simpa using hbad⟩
      unfold RecordHostCPUUsage
      simp only [hc]
      exact hcount

/-- C2, at `reps = 2` with a failed query followed by a `top` output that is
just "qemu": iteration 0 stores its sentinel at index 0 and sleeps; iteration 1
panics after its query, with index 1 still holding the zero of `make`; the run
ends there, no Series is written and nothing is sent. -/
theorem panic_leaves_index_unwritten (pf : GoString → Float64) (nap : Int) (sink : Sink) :
    cpuIteration pf nap 0 (failThenShort 0)
        { cpuData := [.finite 0, .finite 0], success := true, trace := [] } =
      .ok { cpuData := [.finite (-1), .finite 0], success := false,
            trace := [.query 0, .sleep (napDuration nap)] } ∧
    cpuIteration pf nap 1 (failThenShort 1)
        { cpuData := [.finite (-1), .finite 0], success := false,
          trace := [.query 0, .sleep (napDuration nap)] } =
      .error { panic := .indexOutOfRange 6 0,
               trace := [.query 0, .sleep (napDuration nap), .query 1] } ∧
    RecordHostCPUUsage pf failThenShort 2 nap sink =
      .error { panic := .indexOutOfRange 6 0,
               trace := [.query 0, .sleep (napDuration nap), .query 1] } :=
  ⟨rfl, rfl, rfl⟩

/-- C3: the Series of `RecordTraffic` has `reps` elements on every input, the
i-th being the Sample of the i-th query; `RecordHostCPUUsage` on `top` outputs
that are just "qemu" panics in its first iteration for every `reps ≥ 1` and
leaves no Series. -/
theorem series_length_and_panic (pf : GoString → Float64) (probes : Nat → CmdResult)
    (reps : Nat) (nap : Int) (sink : Sink) :
    (∃ fin, RecordTraffic pf probes reps nap sink = .ok fin ∧
      fin.series.map (Except.ok : List Float64 → Except Panic (List Float64)) =
        (List.range reps).map (fun i => trafficSample pf (probes i).out)) ∧
    RecordHostCPUUsage pf (fun _ => shortOutput) (reps + 1) nap sink =
      .error { panic := .indexOutOfRange 6 0, trace := [.query 0] } := by
  constructor
  · obtain ⟨s, hs, h⟩ := RecordTraffic_ok pf probes reps nap sink
    exact ⟨_, h, hs⟩
  · rfl

end tools

/-! ## The claims about the orchestrator -/

namespace monictl
open tools (GoError)

/-- Once the start-up checks pass, `main` is its launch and its join. -/
lemma main_of_passes (repeatStarts : Bool) (env : Startup) (recv : Chan → GoError)
    (h : env.passes repeatStarts = true) :
    main repeatStarts env recv =
      { launched := launch repeatStarts,
        received := (join repeatStarts recv).1,
        exitStatus := (join repeatStarts recv).2 } := by
  obtain ⟨l, d, r⟩ := env
  cases l <;> cases d <;> cases r <;> cases repeatStarts <;>
    first
      | rfl
      | exact absurd h (by decide)

/-- The five ways the steady-state join can go. -/
lemma join_steady (recv : Chan → GoError) :
    (recv Chan.trafficChan ≠ none ∧ join false recv = ([Chan.trafficChan], 1)) ∨
    (recv Chan.trafficChan = none ∧ recv Chan.cpuChan ≠ none ∧
      join false recv = ([Chan.trafficChan, Chan.cpuChan], 1)) ∨
    (recv Chan.trafficChan = none ∧ recv Chan.cpuChan = none ∧ recv Chan.crioChan ≠ none ∧
      join false recv = ([Chan.trafficChan, Chan.cpuChan, Chan.crioChan], 1)) ∨
    (recv Chan.trafficChan = none ∧ recv Chan.cpuChan = none ∧ recv Chan.crioChan = none ∧
      recv Chan.nodeDesChan ≠ none ∧ join false recv = (joinOrder, 1)) ∨
    (recv Chan.trafficChan = none ∧ recv Chan.cpuChan = none ∧ recv Chan.crioChan = none ∧
      recv Chan.nodeDesChan = none ∧ join false recv = (joinOrder, 0)) := by
  rcases h1 : recv Chan.trafficChan with _ | e1
  · rcases h2 : recv Chan.cpuChan with _ | e2
    · rcases h3 : recv Chan.crioChan with _ | e3
      · rcases h4 : recv Chan.nodeDesChan with _ | e4
        · simp [join, joinOrder, h1, h2, h3, h4]
        · simp [join, joinOrder, h1, h2, h3, h4]
      · simp [join, h1, h2, h3]
    · simp [join, h1, h2]
  · simp [join, h1]

/-- The lifecycle join reads `startChan` and nothing else. -/
lemma join_lifecycle (recv : Chan → GoError) :
    (join true recv).1 = [Chan.startChan] ∧
    ((join true recv).2 = 0 ↔ recv Chan.startChan = none) := by
  rcases h : recv Chan.startChan with _ | e <;> simp [join, h]

/-- C5: in steady-state mode, once the start-up checks pass, `main` reads the
report channels in the order traffic, cpu, crio, node description whatever the
outcomes are; it exits with status 0 exactly when all four outcomes are nil
(success), having read all four; and when the k-th channel of that order is the
first to deliver an error it exits with non-zero status having read exactly the
first k+1 channels, none after the failing one. -/
theorem join_is_ordered_and_fail_fast (env : Startup) (recv : Chan → GoError)
    (h : env.passes false = true) :
    ((main false env recv).exitStatus = 0 ↔ ∀ ch ∈ joinOrder, recv ch = none) ∧
    ((∀ ch ∈ joinOrder, recv ch = none) → (main false env recv).received = joinOrder) ∧
    (∀ k ch, joinOrder.get? k = some ch → recv ch ≠ none →
      (∀ j c, j < k → joinOrder.get? j = some c → recv c = none) →
      (main false env recv).exitStatus ≠ 0 ∧
      (main false env recv).received = joinOrder.take (k + 1)) := by
  rw [main_of_passes false env recv h]
  have hall : (∀ ch ∈ joinOrder, recv ch = none) ↔
      recv Chan.trafficChan = none ∧ recv Chan.cpuChan = none ∧
      recv Chan.crioChan = none ∧ recv Chan.nodeDesChan = none := by
    simp [joinOrder]
  refine ⟨?_, ?_, ?_⟩
  · rw [hall]
    rcases join_steady recv with ⟨a, e⟩ | ⟨a, b, e⟩ | ⟨a, b, c, e⟩ | ⟨a, b, c, d, e⟩ |
      ⟨a, b, c, d, e⟩ <;> simp [e, a, *]
  · rw [hall]
    rintro ⟨a, b, c, d⟩
    rcases join_steady recv with ⟨a', e⟩ | ⟨_, b', e⟩ | ⟨_, _, c', e⟩ | ⟨_, _, _, d', e⟩ |
      ⟨_, _, _, _, e⟩
    · exact absurd a a'
    · exact absurd b b'
    · exact absurd c c'
    · exact absurd d d'
    · simp [e]
  · intro k ch hk hne hbefore
    have h0 : 0 < k → recv Chan.trafficChan = none := fun hlt => hbefore 0 _ hlt rfl
    have h1 : 1 < k → recv Chan.cpuChan = none := fun hlt => hbefore 1 _ hlt rfl
    have h2 : 2 < k → recv Chan.crioChan = none := fun hlt => hbefore 2 _ hlt rfl
    match k, hk with
    | 0, hk =>
      obtain rfl : Chan.trafficChan = ch := by simpa [joinOrder] using hk
      rcases h1 : recv Chan.trafficChan with _ | e1
      · exact absurd h1 hne
      · simp [join, joinOrder, h1]
    | 1, hk =>
      obtain rfl : Chan.cpuChan = ch := by simpa [joinOrder] using hk
      rcases h1 : recv Chan.cpuChan with _ | e1
      · exact absurd h1 hne
      · simp [join, joinOrder, h0 (by omega), h1]
    | 2, hk =>
      obtain rfl : Chan.crioChan = ch := by simpa [joinOrder] using hk
      rcases h3 : recv Chan.crioChan with _ | e1
      · exact absurd h3 hne
      · simp [join, joinOrder, h0 (by omega), h1 (by omega), h3]
    | 3, hk =>
      obtain rfl : Chan.nodeDesChan = ch := by simpa [joinOrder] using hk
      rcases h4 : recv Chan.nodeDesChan with _ | e1
      · exact absurd h4 hne
      · simp [join, joinOrder, h0 (by omega), h1 (by omega), h2 (by omega), h4]
    | k + 4, hk => simp [joinOrder] at hk

/-- C5, witness: the join theorem at a run in which the CPU collector is the
first to fail: the exit status is not 0 and only traffic and cpu were read. -/
theorem join_is_ordered_and_fail_fast_witness :
    goodStartup.passes false = true ∧
    (main false goodStartup cpuFails).exitStatus ≠ 0 ∧
    (main false goodStartup cpuFails).received = [Chan.trafficChan, Chan.cpuChan] :=
  ⟨by decide,
   (join_is_ordered_and_fail_fast goodStartup cpuFails (by decide)).2.2 1 Chan.cpuChan rfl
     (by decide) (by
       intro j c hj hc
       obtain rfl : j = 0 := by omega
       obtain rfl : Chan.trafficChan = c := by simpa [joinOrder] using hc
       rfl)⟩

/-- C6: once the start-up checks pass, the collectors `main` starts are fixed
by the run mode: with the repeat-starts flag only `RecordStartTimes`, on
`startChan`; without it exactly the four steady-state collectors, each on its
own channel. In both modes the channels `main` can come to wait on are exactly
the channels handed to the started collectors, no channel is read twice, and a
run that ends with status 0 has read every one of them. -/
theorem collectors_match_run_mode (repeatStarts : Bool) (env : Startup)
    (recv : Chan → GoError) (h : env.passes repeatStarts = true) :
    (repeatStarts = true →
      (main repeatStarts env recv).launched =
        [(Collector.RecordStartTimes, Chan.startChan)]) ∧
    (repeatStarts = false →
      (main repeatStarts env recv).launched =
        [(Collector.RecordTraffic, Chan.trafficChan),
         (Collector.RecordHostCPUUsage, Chan.cpuChan),
         (Collector.GetCRIStatsFromVM, Chan.crioChan),
         (Collector.GetNodeResource, Chan.nodeDesChan)]) ∧
    (∀ ch, (∃ r, ch ∈ (main repeatStarts env r).received) ↔
      ch ∈ (main repeatStarts env recv).launched.map Prod.snd) ∧
    (main repeatStarts env recv).received.Nodup ∧
    ((main repeatStarts env recv).exitStatus = 0 →
      (main repeatStarts env recv).received =
        (main repeatStarts env recv).launched.map Prod.snd) := by
  have hmain := fun r => main_of_passes repeatStarts env r h
  simp only [hmain]
  cases repeatStarts
  · refine ⟨by simp, fun _ => rfl, ?_, ?_, ?_⟩
    · intro ch
      constructor
      · rintro ⟨r, hr⟩
        rcases join_steady r with ⟨_, e⟩ | ⟨_, _, e⟩ | ⟨_, _, _, e⟩ | ⟨_, _, _, _, e⟩ |
          ⟨_, _, _, _, e⟩ <;>
          (rw [e] at hr; simp [joinOrder] at hr; simp [launch]; tauto)
      · intro hch
        refine ⟨fun _ => none, ?_⟩
        simpa [join, launch] using hch
    · rcases join_steady recv with ⟨_, e⟩ | ⟨_, _, e⟩ | ⟨_, _, _, e⟩ | ⟨_, _, _, _, e⟩ |
        ⟨_, _, _, _, e⟩ <;> (rw [e]; simp [joinOrder])
    · rcases join_steady recv with ⟨_, e⟩ | ⟨_, _, e⟩ | ⟨_, _, _, e⟩ | ⟨_, _, _, _, e⟩ |
        ⟨_, _, _, _, e⟩ <;> (rw [e]; simp [joinOrder, launch])
  · have hl := fun r => (join_lifecycle r).1
    refine ⟨fun _ => rfl, by simp, ?_, ?_, ?_⟩
    · intro ch
      simp [hl, launch]
    · simp [hl]
    · intro _
      simp [hl, launch]

/-- C6, witness: the selection theorem at a lifecycle run whose start-up checks
pass. -/
theorem collectors_match_run_mode_witness :
    goodStartup.passes true = true ∧
    (main true goodStartup cpuFails).launched =
      [(Collector.RecordStartTimes, Chan.startChan)] :=
  ⟨by decide, (collectors_match_run_mode true goodStartup cpuFails (by decide)).1 rfl⟩

end monictl
